import Mathlib

/-!
Shallow embedding of the AX.25 codec (`ax25.c`, `config.h`) and proofs about
its frame pipeline: address field, frame builder, FCS, HDLC bit stuffing,
MSB-first bit packing, decoding, and the matrix fragmentation layer.

Bytes are modelled as `Nat` (uint8 values are kept `< 256` by construction or
by hypothesis); one-bit-per-byte bit streams are `List Nat` whose elements are
`0` or `1`, exactly as in the C buffers.
-/

/-! ## Configuration constants (`config.h`) -/

def AX25_MAX_FRAME_LEN : Nat := 256

def AX25_MAX_INFO_LEN : Nat := 240

def AX25_MIN_ADDR_LEN : Nat := 14

def AX25_MAX_CONSECUTIVE_ONES : Nat := 5

def AX25_MAX_STUFFED_BITS : Nat := 14

def MATRIX_CHUNK_SIZE : Nat := 200

/-- `SAT_CALLSIGN = "PARSAT"` as byte values. -/
def SAT_CALLSIGN : List Nat := [0x50, 0x41, 0x52, 0x53, 0x41, 0x54]

def SAT_SSID : Nat := 0

/-- `GRD_CALLSIGN = "ABCD"` as byte values. -/
def GRD_CALLSIGN : List Nat := [0x41, 0x42, 0x43, 0x44]

def GRD_SSID : Nat := 0

/-! ## CRC engine -/

/-- Modelled from the spec: one reflected shift step of CRC-16-CCITT
(polynomial 0x1021 reflected to 0x8408).  The table
`crc16_ccitt_table_reverse` itself lives in `utils.h`, which is not among the
sources; the spec (§4.1) describes it as "the 256-entry reflected
CRC-16-CCITT table (polynomial 0x1021, reflected to 0x8408)", whose entry `i`
is obtained by eight reflected shift steps applied to `i`. -/
def crc16_step (c : Nat) : Nat :=
  if c % 2 = 1 then (c / 2) ^^^ 0x8408 else c / 2

/-- Modelled from the spec: entry `i` of the reversed CRC-16-CCITT lookup
table from `utils.h` (eight reflected shift steps applied to `i`). -/
def crc16_ccitt_table_reverse (i : Nat) : Nat :=
  crc16_step (crc16_step (crc16_step (crc16_step
    (crc16_step (crc16_step (crc16_step (crc16_step i)))))))

/-- `ax25_fcs`: `fcs ← 0xFFFF`; for each byte
`fcs ← (fcs >> 8) ^ table[(fcs ^ b) & 0xFF]`; return `fcs ^ 0xFFFF`. -/
def ax25_fcs (buffer : List Nat) : Nat :=
  (buffer.foldl
    (fun fcs b => (fcs / 256) ^^^ crc16_ccitt_table_reverse ((fcs ^^^ b) % 256))
    0xFFFF) ^^^ 0xFFFF

/-! ## Address encoder -/

/-- `strnlen`: length of the byte string up to the first NUL, capped. -/
def strnlen : List Nat → Nat → Nat
  | _, 0 => 0
  | [], _ => 0
  | b :: bs, n + 1 => if b = 0 then 0 else strnlen bs n + 1

/-- One callsign slot of the address field: up to 6 callsign bytes each
shifted left by one, padded to 6 bytes with `' ' << 1 = 0x40`. -/
def encodeCallsign (addr : List Nat) : List Nat :=
  ((addr.take (strnlen addr 6)).map fun ch => ch * 2 % 256) ++
    List.replicate (6 - strnlen addr 6) 0x40

/-- `ax25_create_addr_field`: destination slot, destination SSID byte
`((ssid & 0x0F) << 1) | 0x60`, source slot, source SSID byte with the
end-of-address bit `0x01` also set.  (The `+` stand for `|` of disjoint
bit ranges: `(ssid % 16) * 2` occupies bits 1-4, `0x60` bits 5-6, `1` bit 0.) -/
def ax25_create_addr_field (dest : List Nat) (dest_ssid : Nat)
    (src : List Nat) (src_ssid : Nat) : List Nat :=
  encodeCallsign dest ++ [dest_ssid % 16 * 2 + 0x60] ++
    encodeCallsign src ++ [src_ssid % 16 * 2 + 0x60 + 1]

/-! ## Frame builder -/

inductive FrameType where
  | I
  | S
  | U
  | UI
deriving DecidableEq

/-- `ax25_create_frame`: leading flag, address, control (low byte first),
PID `0xF0` for I/UI frames, info, FCS of everything after the leading flag
(MSB first), trailing flag.  Returns `[]` where the C code returns length 0
(info too long / bad control length). -/
def ax25_create_frame (info : List Nat) (ty : FrameType) (addr : List Nat)
    (ctrl : Nat) (ctrl_len : Nat) : List Nat :=
  if info.length > 240 then []
  else if ctrl_len ≠ 1 ∧ ctrl_len ≠ 2 then []
  else
    let ctrlBytes :=
      if ctrl_len = 1 then [ctrl % 256] else [ctrl % 256, ctrl / 256 % 256]
    let pidBytes :=
      if ty = FrameType.I ∨ ty = FrameType.UI then [0xF0] else []
    let pre := 0x7E :: (addr ++ ctrlBytes ++ pidBytes ++ info)
    let fcs := ax25_fcs (pre.drop 1)
    pre ++ [fcs / 256 % 256, fcs % 256, 0x7E]

/-! ## Bit stuffing -/

/-- Bits of a byte, LSB first (`(b >> k) & 1` for `k = 0..7`). -/
def byteBitsLSB (b : Nat) : List Nat :=
  [b % 2, b / 2 % 2, b / 4 % 2, b / 8 % 2,
   b / 16 % 2, b / 32 % 2, b / 64 % 2, b / 128 % 2]

/-- `AX25_SYNC_FLAG_MAP_BIN`, the 8 bits of the `0x7E` flag. -/
def flagBits : List Nat := [0, 1, 1, 1, 1, 1, 1, 0]

/-- The body loop of `ax25_bit_stuffing`: state `c` is `cont_1`, the count of
consecutive 1 bits emitted.  Before emitting a bit, if `c ≥ 5` a `0` is
stuffed and `c` reset; after emitting a 1 the counter is checked against
`AX25_MAX_STUFFED_BITS = 14` (`none` = `AX25_ENC_FAIL`). -/
def stuff : List Nat → Nat → Option (List Nat)
  | [], _ => some []
  | b :: bs, c =>
    if c ≥ 5 then
      if b = 1 then
        if 1 > 14 then none
        else (stuff bs 1).map fun r => 0 :: b :: r
      else (stuff bs 0).map fun r => 0 :: b :: r
    else
      if b = 1 then
        if c + 1 > 14 then none
        else (stuff bs (c + 1)).map fun r => b :: r
      else (stuff bs 0).map fun r => b :: r

/-- `ax25_bit_stuffing`: emit the leading flag verbatim, stuff the bits of
the bytes strictly between the two flag bytes (scanned LSB-first), emit the
trailing flag verbatim. -/
def ax25_bit_stuffing (frame : List Nat) : Option (List Nat) :=
  match stuff (((frame.drop 1).take (frame.length - 2)).flatMap byteBitsLSB) 0 with
  | none => none
  | some s => some (flagBits ++ s ++ flagBits)

/-! ## Bit packing and `ax25_encode` -/

/-- MSB-first value of a bit list (`bits[0]` is the most significant). -/
def bitsValMSB (bits : List Nat) : Nat :=
  bits.foldl (fun a b => 2 * a + b) 0

/-- Pack a bit stream into bytes MSB-first, eight bits per output byte
(`out[i/8] |= bit << (7 - i%8)`); a final group of fewer than eight bits is
placed in the high-order positions, the low-order side staying zero. -/
def packBits : List Nat → List Nat
  | [] => []
  | b0 :: b1 :: b2 :: b3 :: b4 :: b5 :: b6 :: b7 :: rest =>
    bitsValMSB [b0, b1, b2, b3, b4, b5, b6, b7] :: packBits rest
  | l => [bitsValMSB l * 2 ^ (8 - l.length)]

/-- `ax25_encode`: build the address field from the configured identities,
build the UI frame with control `0x03`, bit-stuff, pack.  Errors are the C
return codes (`-2` invalid parameter, `-1` generic failure). -/
def ax25_encode (input : List Nat) (ty : FrameType) : Except Int (List Nat) :=
  if ty = FrameType.UI then
    let addr := ax25_create_addr_field GRD_CALLSIGN GRD_SSID SAT_CALLSIGN SAT_SSID
    let frame := ax25_create_frame input FrameType.UI addr 0x03 1
    if frame.length = 0 then Except.error (-1)
    else
      match ax25_bit_stuffing frame with
      | none => Except.error (-1)
      | some bits => Except.ok (packBits bits)
  else Except.error (-2)

/-! ## Decoding -/

/-- Bits of a byte, MSB first (`(b >> (7-k)) & 1` for `k = 0..7`), as in the
expansion loop of `ax25_recv`. -/
def byteBitsMSB (b : Nat) : List Nat :=
  [b / 128 % 2, b / 64 % 2, b / 32 % 2, b / 16 % 2,
   b / 8 % 2, b / 4 % 2, b / 2 % 2, b % 2]

def bytesToBitsMSB (bytes : List Nat) : List Nat :=
  bytes.flatMap byteBitsMSB

/-- The sync-flag window check of `ax25_decode` (`res == 0` iff the next 8
bit-cells equal the flag pattern).  The callers only consult it when at least
8 cells remain. -/
def flagHead : List Nat → Bool
  | b0 :: b1 :: b2 :: b3 :: b4 :: b5 :: b6 :: b7 :: _ =>
    b0 == 0 && b1 == 1 && b2 == 1 && b3 == 1 &&
      b4 == 1 && b5 == 1 && b6 == 1 && b7 == 0
  | _ => false

/-- The start-flag search of `ax25_decode`: the window at bit `i` is examined
while `i < len - 8`, i.e. while more than 8 cells remain; returns the suffix
starting at the first flag. -/
def findStart : List Nat → Option (List Nat)
  | [] => none
  | l@(_ :: rest) =>
    if l.length > 8 then
      if flagHead l then some l else findStart rest
    else none

/-- The frame-content loop of `ax25_decode`, running while `i < len - 7`
(more than 7 cells remain).  State: `c` = `cont_1`, `bc` = `bit_cnt`,
`db` = `decoded_byte`, `acc` = bytes stored into `out` so far.  Returns the
bytes written together with `true` iff the closing flag was found
(`frame_stop ≠ UINT_MAX`); a 1 bit after five consecutive 1s is the
`AX25_DEC_FAIL` stuffing violation.  `db + 2 ^ bc` is `decoded_byte |= 1 <<
bit_cnt` (the bit at `bc` is clear since `db < 2 ^ bc`). -/
def decodeLoop : List Nat → Nat → Nat → Nat → List Nat → List Nat × Bool
  | [], _, _, _, acc => (acc, false)
  | l@(b :: rest), c, bc, db, acc =>
    if l.length > 7 then
      if flagHead l then (acc, true)
      else if b = 1 then
        if c + 1 > 5 then (acc, false)
        else if bc + 1 = 8 then decodeLoop rest (c + 1) 0 0 (acc ++ [db + 2 ^ bc])
        else decodeLoop rest (c + 1) (bc + 1) (db + 2 ^ bc) acc
      else if c ≥ 5 then decodeLoop rest 0 bc db acc
      else if bc + 1 = 8 then decodeLoop rest 0 0 0 (acc ++ [db])
      else decodeLoop rest 0 (bc + 1) db acc
    else (acc, false)

/-- `ax25_decode` on a one-bit-per-byte stream: find the start flag, run the
content loop, validate (`frame_stop` found and at least 14 bytes), check the
FCS.  Returns the bytes written to `out` together with `some out_len` on
`AX25_DEC_OK` and `none` on `AX25_DEC_FAIL`. -/
def ax25_decode (bits : List Nat) : List Nat × Option Nat :=
  match findStart bits with
  | none => ([], none)
  | some l =>
    match decodeLoop (l.drop 8) 0 0 0 [] with
    | (w, false) => (w, none)
    | (w, true) =>
      if w.length < 14 then (w, none)
      else
        let fcs := ax25_fcs (w.take (w.length - 2))
        let recv_fcs := w.getD (w.length - 2) 0 * 256 + w.getD (w.length - 1) 0
        if fcs = recv_fcs then (w, some (w.length - 2)) else (w, none)

/-- `ax25_recv`: expand the wire bytes MSB-first to one bit per byte, decode;
`-1` (`AX25_ERROR`) on any decode failure, else the decoded length.  The
first component is the content of the caller's `out` buffer after the call. -/
def ax25_recv (input : List Nat) : List Nat × Int :=
  match ax25_decode (bytesToBitsMSB input) with
  | (w, none) => (w, -1)
  | (w, some n) => (w, (n : Int))


/-! ## Matrix fragmentation layer -/

/-- `matrix_metadata_t` (all fields `uint16_t` except `element_size : uint8_t`). -/
structure MatrixMeta where
  total_chunks : Nat
  chunk_index : Nat
  rows : Nat
  cols : Nat
  data_len : Nat
  element_size : Nat

/-- `encode_matrix_metadata`: 11 bytes, all multi-byte fields big-endian. -/
def encode_matrix_metadata (m : MatrixMeta) : List Nat :=
  [m.total_chunks / 256 % 256, m.total_chunks % 256,
   m.chunk_index / 256 % 256, m.chunk_index % 256,
   m.rows / 256 % 256, m.rows % 256,
   m.cols / 256 % 256, m.cols % 256,
   m.data_len / 256 % 256, m.data_len % 256,
   m.element_size % 256]

/-- `decode_matrix_metadata`, reading from the given buffer region (out-of
range reads default to `0`, as the C `decode_buffer` is zero-filled). -/
def decode_matrix_metadata (buf : List Nat) : MatrixMeta :=
  { total_chunks := buf.getD 0 0 * 256 + buf.getD 1 0
    chunk_index := buf.getD 2 0 * 256 + buf.getD 3 0
    rows := buf.getD 4 0 * 256 + buf.getD 5 0
    cols := buf.getD 6 0 * 256 + buf.getD 7 0
    data_len := buf.getD 8 0 * 256 + buf.getD 9 0
    element_size := buf.getD 10 0 }

/-- `chunk_data_size` in `ax25_encode_matrix`: `MATRIX_CHUNK_SIZE`, clamped to
`AX25_MAX_INFO_LEN - sizeof(matrix_metadata_t)`.  `sizeof` is 12 with the
usual struct padding (11 bytes packed); the clamp fires for neither value,
leaving 200. -/
def matrixChunkDataSize : Nat :=
  if MATRIX_CHUNK_SIZE > AX25_MAX_INFO_LEN - 12 then AX25_MAX_INFO_LEN - 12
  else MATRIX_CHUNK_SIZE

/-- The chunk loop of `ax25_encode_matrix`: per chunk, metadata header plus
`min remaining chunk_data_size` matrix bytes are framed by `ax25_encode`, and
the wire frame is appended behind a 2-byte big-endian length. -/
def encMatrixLoop (matrix : List Nat) (rows cols esize total chunks : Nat) :
    Nat → Nat → List Nat → Except Int (List Nat)
  | i, offset, acc =>
    if i < chunks then
      let to_encode := min (total - offset) matrixChunkDataSize
      let meta : MatrixMeta :=
        { total_chunks := chunks % 65536, chunk_index := i % 65536,
          rows := rows, cols := cols, data_len := to_encode % 65536,
          element_size := esize }
      let chunk := encode_matrix_metadata meta ++ (matrix.drop offset).take to_encode
      match ax25_encode chunk FrameType.UI with
      | Except.error _ => Except.error (-1)
      | Except.ok w =>
        encMatrixLoop matrix rows cols esize total chunks (i + 1) (offset + to_encode)
          (acc ++ [w.length / 256 % 256, w.length % 256] ++ w)
    else Except.ok acc
termination_by i => chunks - i
decreasing_by omega

/-- `ax25_encode_matrix`: `⌈total / chunk_data_size⌉` chunks; returns the
length-prefixed frame stream and the chunk count (`*frame_count`). -/
def ax25_encode_matrix (matrix : List Nat) (rows cols esize : Nat) :
    Except Int (List Nat × Nat) :=
  let total := rows * cols * esize
  let chunks := (total + matrixChunkDataSize - 1) / matrixChunkDataSize
  match encMatrixLoop matrix rows cols esize total chunks 0 0 [] with
  | Except.error e => Except.error e
  | Except.ok frames => Except.ok (frames, chunks)

/-- The frame loop of `ax25_decode_matrix`: per frame, read the 2-byte
big-endian length `L` (sanity bound `0 < L ≤ 500`), `ax25_recv` the next `L`
bytes, require at least `14 + 2` decoded bytes, parse the metadata behind the
16-byte AX.25 header, latch `rows`/`cols`/`element_size` on the first chunk,
and append `data_len` payload bytes. -/
def decMatrixLoop (frames : List Nat) (frame_count : Nat) :
    Nat → Nat → List Nat → Nat → Nat → Nat → Option (List Nat × Nat × Nat × Nat)
  | i, frame_offset, acc, r, c, e =>
    if i < frame_count then
      if frame_offset + 2 > 50000 then none
      else
        let L := frames.getD frame_offset 0 * 256 + frames.getD (frame_offset + 1) 0
        if L = 0 ∨ L > 500 then none
        else
          let dec := ax25_recv ((frames.drop (frame_offset + 2)).take L)
          if dec.2 < (16 : Int) then none
          else
            let meta := decode_matrix_metadata (dec.1.drop 16)
            decMatrixLoop frames frame_count (i + 1) (frame_offset + 2 + L)
              (acc ++ (dec.1.drop 27).take meta.data_len)
              (if i = 0 then meta.rows else r)
              (if i = 0 then meta.cols else c)
              (if i = 0 then meta.element_size else e)
    else some (acc, r, c, e)
termination_by i => frame_count - i
decreasing_by omega

/-- `ax25_decode_matrix`: run the frame loop; on success the reassembled
image together with the latched `rows`, `cols`, `element_size` out-parameters
(the C return value is the image length). -/
def ax25_decode_matrix (frames : List Nat) (frame_count : Nat) :
    Option (List Nat × Nat × Nat × Nat) :=
  decMatrixLoop frames frame_count 0 0 [] 0 0 0

/-! ## Derived descriptions used in the theorem statements -/

/-- The constant 16-byte AX.25 header produced by the configured identities:
address field, control `0x03`, PID `0xF0`. -/
def ax25Header16 : List Nat :=
  ax25_create_addr_field GRD_CALLSIGN GRD_SSID SAT_CALLSIGN SAT_SSID ++ [0x03, 0xF0]

/-- The bytes between the flags of the unstuffed UI frame for payload `p`:
header, payload, FCS (MSB first).  This is exactly what `ax25_recv` leaves in
the caller's buffer on a successful round trip. -/
def frameContent (p : List Nat) : List Nat :=
  (ax25Header16 ++ p) ++
    [ax25_fcs (ax25Header16 ++ p) / 256 % 256, ax25_fcs (ax25Header16 ++ p) % 256]

/-- Modelled from the spec: the stuffing rule of §4.4 steps 2-3 ("Before
emitting a new payload bit, if `ones` has reached 5, emit a single `0` bit
first and reset `ones`.  Then emit the payload bit; if it is `1`, increment
`ones`; else reset `ones`."), with no abort bookkeeping. -/
def specStuff : List Nat → Nat → List Nat
  | [], _ => []
  | b :: bs, ones =>
    if ones ≥ 5 then 0 :: b :: specStuff bs (if b = 1 then 1 else 0)
    else b :: specStuff bs (if b = 1 then ones + 1 else 0)

/-- Number of zero bits inserted by the stuffer. -/
def stuffCount : List Nat → Nat → Nat
  | [], _ => 0
  | b :: bs, c =>
    if c ≥ 5 then 1 + stuffCount bs (if b = 1 then 1 else 0)
    else stuffCount bs (if b = 1 then c + 1 else 0)

/-- `runsBounded l k`: scanning `l` with `k` consecutive 1 bits already seen,
the run counter never exceeds 5. -/
def runsBounded : List Nat → Nat → Bool
  | [], _ => true
  | b :: bs, k =>
    if b = 1 then decide (k + 1 ≤ 5) && runsBounded bs (k + 1) else runsBounded bs 0

/-- A bit stream contains no run of six (or more) consecutive 1 bits. -/
def noSixOnes (l : List Nat) : Prop :=
  ¬ ∃ u v, l = u ++ 1 :: 1 :: 1 :: 1 :: 1 :: 1 :: v

/-- Reassembly of a bit stream into bytes LSB-first, from a partial byte of
`bc` bits with value `db`: the big-step description of what the content loop
of `ax25_decode` stores into `out` (a trailing partial byte is dropped). -/
def assembleBits : List Nat → Nat → Nat → List Nat
  | [], _, _ => []
  | b :: bs, bc, db =>
    if bc + 1 = 8 then (db + b * 2 ^ bc) :: assembleBits bs 0 0
    else assembleBits bs (bc + 1) (db + b * 2 ^ bc)

/-! ## Concrete test vectors (the "Test Data" corruption scenario) -/

/-- `"Test Data"` with its terminating NUL, as in `test_fcs_corruption_detection`. -/
def testDataPayload : List Nat :=
  [0x54, 0x65, 0x73, 0x74, 0x20, 0x44, 0x61, 0x74, 0x61, 0x00]

/-- The 30 wire bytes `ax25_encode` produces for `testDataPayload`
(checked below). -/
def testDataWire : List Nat :=
  [126, 65, 33, 97, 17, 2, 2, 6, 5, 65, 37, 101, 65, 21, 134,
   192, 15, 42, 166, 206, 46, 4, 34, 134, 46, 134, 0, 238, 26, 126]

/-- The corrupted buffer of the test: `encoded[enc_len / 2] ^= 0x01`
(one bit flipped in the middle of the encoded buffer). -/
def corruptedTestFrame : List Nat :=
  testDataWire.set (testDataWire.length / 2)
    (testDataWire.getD (testDataWire.length / 2) 0 ^^^ 0x01)

/-- The flat 5×5 `uint8_t` matrix `M[i][j] = 5*i + j` of test scenario 6. -/
def matrix5x5 : List Nat := List.range 25

/-! ## Lemmas about the bit stuffer -/

lemma stuff_isSome : ∀ (bits : List Nat) (c : Nat), ∃ S, stuff bits c = some S := by
  intro bits
  induction bits with
  | nil => intro c; exact ⟨[], rfl⟩
  | cons b bs ih =>
    intro c
    by_cases hc : 5 ≤ c
    · by_cases hb : b = 1
      · obtain ⟨S, hS⟩ := ih 1
        exact ⟨0 :: b :: S, by simp [stuff, hc, hb, hS]⟩
      · obtain ⟨S, hS⟩ := ih 0
        exact ⟨0 :: b :: S, by simp [stuff, hc, hb, hS]⟩
    · by_cases hb : b = 1
      · obtain ⟨S, hS⟩ := ih (c + 1)
        refine ⟨b :: S, ?_⟩
        simp [stuff, hc, hb, hS, show ¬(c + 1 > 14) by omega]
      · obtain ⟨S, hS⟩ := ih 0
        exact ⟨b :: S, by simp [stuff, hc, hb, hS]⟩

lemma stuff_eq_specStuff : ∀ (bits : List Nat) (c : Nat),
    stuff bits c = some (specStuff bits c) := by
  intro bits
  induction bits with
  | nil => intro c; rfl
  | cons b bs ih =>
    intro c
    by_cases hc : 5 ≤ c
    · by_cases hb : b = 1 <;>
        simp [stuff, specStuff, hc, hb, ih]
    · by_cases hb : b = 1
      · simp [stuff, specStuff, hc, hb, ih, show ¬(c + 1 > 14) by omega]
      · simp [stuff, specStuff, hc, hb, ih]

lemma specStuff_allBits : ∀ (bits : List Nat) (c : Nat),
    (∀ b ∈ bits, b ≤ 1) → ∀ x ∈ specStuff bits c, x ≤ 1 := by
  intro bits
  induction bits with
  | nil => intro c _ x hx; simp [specStuff] at hx
  | cons b bs ih =>
    intro c hb x hx
    have hb0 : b ≤ 1 := hb b (by simp)
    have hbs : ∀ y ∈ bs, y ≤ 1 := fun y hy => hb y (by simp [hy])
    by_cases hc : 5 ≤ c <;>
      simp only [specStuff, if_pos, if_neg, hc, ite_true, ite_false,
        List.mem_cons] at hx
    · rcases hx with rfl | rfl | hx
      · omega
      · exact hb0
      · exact ih _ hbs x hx
    · rcases hx with rfl | hx
      · exact hb0
      · exact ih _ hbs x hx

lemma specStuff_runsBounded : ∀ (bits : List Nat) (c : Nat),
    (∀ b ∈ bits, b ≤ 1) → c ≤ 5 → runsBounded (specStuff bits c) c = true := by
  intro bits
  induction bits with
  | nil => intro c _ _; rfl
  | cons b bs ih =>
    intro c hb hc
    have hb0 : b ≤ 1 := hb b (by simp)
    have hbs : ∀ y ∈ bs, y ≤ 1 := fun y hy => hb y (by simp [hy])
    by_cases h5 : 5 ≤ c
    · by_cases h1 : b = 1
      · subst h1
        simpa [specStuff, runsBounded, h5] using ih 1 hbs (by omega)
      · have hb0' : b = 0 := by omega
        subst hb0'
        simpa [specStuff, runsBounded, h5] using ih 0 hbs (by omega)
    · by_cases h1 : b = 1
      · subst h1
        simp [specStuff, runsBounded, h5, show c + 1 ≤ 5 by omega]
        exact ih (c + 1) hbs (by omega)
      · have hb0' : b = 0 := by omega
        subst hb0'
        simpa [specStuff, runsBounded, h5] using ih 0 hbs (by omega)

lemma runsBounded_mono : ∀ (s : List Nat) (k k' : Nat), k' ≤ k →
    runsBounded s k = true → runsBounded s k' = true := by
  intro s
  induction s with
  | nil => intro k k' _ _; rfl
  | cons b bs ih =>
    intro k k' hk h
    by_cases h1 : b = 1
    · simp only [runsBounded, if_pos h1, Bool.and_eq_true, decide_eq_true_eq] at h ⊢
      exact ⟨by omega, ih (k + 1) (k' + 1) (by omega) h.2⟩
    · simp only [runsBounded, if_neg h1] at h ⊢
      exact h

lemma specStuff_length : ∀ (bits : List Nat) (c : Nat),
    (specStuff bits c).length = bits.length + stuffCount bits c := by
  intro bits
  induction bits with
  | nil => intro c; rfl
  | cons b bs ih =>
    intro c
    by_cases h5 : 5 ≤ c <;>
      simp [specStuff, stuffCount, h5, ih] <;> omega

lemma stuffCount_le : ∀ (bits : List Nat) (c : Nat), stuffCount bits c ≤ bits.length := by
  intro bits
  induction bits with
  | nil => intro c; simp [stuffCount]
  | cons b bs ih =>
    intro c
    by_cases h5 : 5 ≤ c <;> simp [stuffCount, h5]
    · have := ih (if b = 1 then 1 else 0); omega
    · have := ih (if b = 1 then c + 1 else 0); omega

/-! ## The closing flag is the first flag window after the opening one -/

lemma noFlag_in_body : ∀ (s t : List Nat), runsBounded s 0 = true → s ≠ [] →
    flagHead (s ++ 0 :: 1 :: 1 :: 1 :: 1 :: 1 :: 1 :: 0 :: t) = false := by
  intro s t hrb hne
  rcases s with _ | ⟨a0, _ | ⟨a1, _ | ⟨a2, _ | ⟨a3, _ | ⟨a4, _ | ⟨a5, _ | ⟨a6, _ | ⟨a7, rest⟩⟩⟩⟩⟩⟩⟩⟩
  · exact absurd rfl hne
  · simp [flagHead]
  · simp [flagHead]
  · simp [flagHead]
  · simp [flagHead]
  · simp [flagHead]
  · simp [flagHead]
  · -- length-7 suffix: a match would need six 1 bits inside `s`
    rw [Bool.eq_false_iff]
    intro h
    simp only [List.cons_append, List.nil_append, flagHead, Bool.and_eq_true,
      beq_iff_eq, and_assoc] at h
    obtain ⟨rfl, rfl, rfl, rfl, rfl, rfl, rfl, -⟩ := h
    exact absurd hrb (by decide)
  · -- at least 8 elements: the whole window lies inside `s`
    rw [Bool.eq_false_iff]
    intro h
    simp only [List.cons_append, flagHead, Bool.and_eq_true, beq_iff_eq,
      and_assoc] at h
    obtain ⟨rfl, rfl, rfl, rfl, rfl, rfl, rfl, rfl⟩ := h
    simp [runsBounded] at hrb

lemma runsBounded_noSixOnes : ∀ (u s : List Nat) (k : Nat),
    runsBounded s k = true → ∀ v, s ≠ u ++ 1 :: 1 :: 1 :: 1 :: 1 :: 1 :: v := by
  intro u
  induction u with
  | nil =>
    intro s k h v heq
    subst heq
    simp only [List.nil_append, runsBounded, if_pos, Bool.and_eq_true,
      decide_eq_true_eq] at h
    omega
  | cons a u ih =>
    intro s k h v heq
    subst heq
    by_cases h1 : a = 1
    · simp only [List.cons_append, runsBounded, if_pos h1, Bool.and_eq_true,
        decide_eq_true_eq] at h
      exact ih _ (k + 1) h.2 v rfl
    · simp only [List.cons_append, runsBounded, if_neg h1] at h
      exact ih _ 0 h v rfl

/-! ## Single steps of the `ax25_decode` content loop -/

lemma decodeLoop_at_flag (t : List Nat) (c bc db : Nat) (acc : List Nat) :
    decodeLoop (0 :: 1 :: 1 :: 1 :: 1 :: 1 :: 1 :: 0 :: t) c bc db acc = (acc, true) := by
  have hlen : (0 :: 1 :: 1 :: 1 :: 1 :: 1 :: 1 :: 0 :: t).length > 7 := by
    simp
  have hflag : flagHead (0 :: 1 :: 1 :: 1 :: 1 :: 1 :: 1 :: 0 :: t) = true := by
    simp [flagHead]
  rw [decodeLoop, if_pos hlen, if_pos hflag]

lemma decodeLoop_step1 (rest : List Nat) (c bc db : Nat) (acc : List Nat)
    (hlen : (1 :: rest).length > 7) (hflag : flagHead (1 :: rest) = false)
    (hc : c + 1 ≤ 5) (hbc : bc + 1 ≠ 8) :
    decodeLoop (1 :: rest) c bc db acc
      = decodeLoop rest (c + 1) (bc + 1) (db + 2 ^ bc) acc := by
  rw [decodeLoop, if_pos hlen, if_neg (by simp [hflag]), if_pos rfl,
    if_neg (show ¬ c + 1 > 5 by omega), if_neg hbc]

lemma decodeLoop_step1_flush (rest : List Nat) (c bc db : Nat) (acc : List Nat)
    (hlen : (1 :: rest).length > 7) (hflag : flagHead (1 :: rest) = false)
    (hc : c + 1 ≤ 5) (hbc : bc + 1 = 8) :
    decodeLoop (1 :: rest) c bc db acc
      = decodeLoop rest (c + 1) 0 0 (acc ++ [db + 2 ^ bc]) := by
  rw [decodeLoop, if_pos hlen, if_neg (by simp [hflag]), if_pos rfl,
    if_neg (show ¬ c + 1 > 5 by omega), if_pos hbc]

lemma decodeLoop_step0_skip (rest : List Nat) (c bc db : Nat) (acc : List Nat)
    (hlen : (0 :: rest).length > 7) (hflag : flagHead (0 :: rest) = false)
    (hc : 5 ≤ c) :
    decodeLoop (0 :: rest) c bc db acc = decodeLoop rest 0 bc db acc := by
  rw [decodeLoop, if_pos hlen, if_neg (by simp [hflag]),
    if_neg (show ¬ (0 : Nat) = 1 by omega), if_pos hc]

lemma decodeLoop_step0 (rest : List Nat) (c bc db : Nat) (acc : List Nat)
    (hlen : (0 :: rest).length > 7) (hflag : flagHead (0 :: rest) = false)
    (hc : ¬ 5 ≤ c) (hbc : bc + 1 ≠ 8) :
    decodeLoop (0 :: rest) c bc db acc = decodeLoop rest 0 (bc + 1) db acc := by
  rw [decodeLoop, if_pos hlen, if_neg (by simp [hflag]),
    if_neg (show ¬ (0 : Nat) = 1 by omega), if_neg hc, if_neg hbc]

lemma decodeLoop_step0_flush (rest : List Nat) (c bc db : Nat) (acc : List Nat)
    (hlen : (0 :: rest).length > 7) (hflag : flagHead (0 :: rest) = false)
    (hc : ¬ 5 ≤ c) (hbc : bc + 1 = 8) :
    decodeLoop (0 :: rest) c bc db acc = decodeLoop rest 0 0 0 (acc ++ [db]) := by
  rw [decodeLoop, if_pos hlen, if_neg (by simp [hflag]),
    if_neg (show ¬ (0 : Nat) = 1 by omega), if_neg hc, if_pos hbc]

/-! ## The decode loop inverts the stuffer -/

lemma decodeLoop_specStuff : ∀ (m : Nat) (bits : List Nat) (c bc db : Nat)
    (acc t : List Nat),
    2 * bits.length + (if 5 ≤ c then 1 else 0) ≤ m →
    (∀ b ∈ bits, b ≤ 1) → c ≤ 5 → bc < 8 → db < 2 ^ bc →
    decodeLoop (specStuff bits c ++ 0 :: 1 :: 1 :: 1 :: 1 :: 1 :: 1 :: 0 :: t)
        c bc db acc
      = (acc ++ assembleBits bits bc db, true) := by
  intro m
  induction m with
  | zero =>
    intro bits c bc db acc t hm hb hc hbc hdb
    have h0 : bits.length = 0 := by
      by_cases h5 : 5 ≤ c
      · simp only [if_pos h5] at hm; omega
      · simp only [if_neg h5] at hm; omega
    obtain rfl : bits = [] := List.length_eq_zero.mp h0
    simp [specStuff, assembleBits, decodeLoop_at_flag]
  | succ m ih =>
    intro bits c bc db acc t hm hb hc hbc hdb
    cases bits with
    | nil => simp [specStuff, assembleBits, decodeLoop_at_flag]
    | cons b bs =>
      have hb0 : b ≤ 1 := hb b (by simp)
      have hbs : ∀ y ∈ bs, y ≤ 1 := fun y hy => hb y (by simp [hy])
      have hrb0 : runsBounded (specStuff (b :: bs) c) 0 = true :=
        runsBounded_mono _ c 0 (by omega) (specStuff_runsBounded (b :: bs) c hb hc)
      by_cases h5 : 5 ≤ c
      · -- a zero is stuffed before the current bit
        have hspec : specStuff (b :: bs) c
            = 0 :: b :: specStuff bs (if b = 1 then 1 else 0) := by
          simp [specStuff, h5]
        have hne : specStuff (b :: bs) c ≠ [] := by rw [hspec]; simp
        have hflag := noFlag_in_body (specStuff (b :: bs) c) t hrb0 hne
        rw [hspec] at hflag ⊢
        rw [List.cons_append]
        have hlen : (0 :: ((b :: specStuff bs (if b = 1 then 1 else 0))
            ++ 0 :: 1 :: 1 :: 1 :: 1 :: 1 :: 1 :: 0 :: t)).length > 7 := by
          simp only [List.length_cons, List.length_append]; omega
        have hflag' : flagHead (0 :: ((b :: specStuff bs (if b = 1 then 1 else 0))
            ++ 0 :: 1 :: 1 :: 1 :: 1 :: 1 :: 1 :: 0 :: t)) = false := by
          simpa using hflag
        rw [decodeLoop_step0_skip _ c bc db acc hlen hflag' h5]
        have hspec0 : specStuff (b :: bs) 0
            = b :: specStuff bs (if b = 1 then 1 else 0) := by
          simp [specStuff]
        rw [← hspec0]
        refine ih (b :: bs) 0 bc db acc t ?_ hb (by omega) hbc hdb
        have hite : (if 5 ≤ (0 : Nat) then 1 else 0) = 0 := by norm_num
        rw [hite]
        simp only [if_pos h5, List.length_cons] at hm
        simp only [List.length_cons]
        omega
      · by_cases h1 : b = 1
        · subst h1
          have hspec : specStuff (1 :: bs) c = 1 :: specStuff bs (c + 1) := by
            simp [specStuff, h5]
          have hne : specStuff (1 :: bs) c ≠ [] := by rw [hspec]; simp
          have hflag := noFlag_in_body (specStuff (1 :: bs) c) t hrb0 hne
          rw [hspec] at hflag ⊢
          rw [List.cons_append]
          have hlen : (1 :: (specStuff bs (c + 1)
              ++ 0 :: 1 :: 1 :: 1 :: 1 :: 1 :: 1 :: 0 :: t)).length > 7 := by
            simp only [List.length_cons, List.length_append]; omega
          have hflag' : flagHead (1 :: (specStuff bs (c + 1)
              ++ 0 :: 1 :: 1 :: 1 :: 1 :: 1 :: 1 :: 0 :: t)) = false := by
            simpa using hflag
          have hmm : 2 * bs.length + (if 5 ≤ c + 1 then 1 else 0) ≤ m := by
            simp only [if_neg h5] at hm
            simp only [List.length_cons] at hm
            by_cases h6 : 5 ≤ c + 1 <;> simp [h6] <;> omega
          by_cases h8 : bc + 1 = 8
          · rw [decodeLoop_step1_flush _ c bc db acc hlen hflag' (by omega) h8]
            rw [ih bs (c + 1) 0 0 (acc ++ [db + 2 ^ bc]) t hmm hbs (by omega)
              (by omega) (by norm_num)]
            simp [assembleBits, h8]
          · rw [decodeLoop_step1 _ c bc db acc hlen hflag' (by omega) h8]
            rw [ih bs (c + 1) (bc + 1) (db + 2 ^ bc) acc t hmm hbs (by omega)
              (by omega) (by rw [pow_succ]; omega)]
            simp [assembleBits, h8]
        · have hbz : b = 0 := by omega
          subst hbz
          have hspec : specStuff (0 :: bs) c = 0 :: specStuff bs 0 := by
            simp [specStuff, h5]
          have hne : specStuff (0 :: bs) c ≠ [] := by rw [hspec]; simp
          have hflag := noFlag_in_body (specStuff (0 :: bs) c) t hrb0 hne
          rw [hspec] at hflag ⊢
          rw [List.cons_append]
          have hlen : (0 :: (specStuff bs 0
              ++ 0 :: 1 :: 1 :: 1 :: 1 :: 1 :: 1 :: 0 :: t)).length > 7 := by
            simp only [List.length_cons, List.length_append]; omega
          have hflag' : flagHead (0 :: (specStuff bs 0
              ++ 0 :: 1 :: 1 :: 1 :: 1 :: 1 :: 1 :: 0 :: t)) = false := by
            simpa using hflag
          have hmm : 2 * bs.length + (if 5 ≤ (0 : Nat) then 1 else 0) ≤ m := by
            simp only [if_neg h5, List.length_cons] at hm
            simp
            omega
          by_cases h8 : bc + 1 = 8
          · rw [decodeLoop_step0_flush _ c bc db acc hlen hflag' h5 h8]
            rw [ih bs 0 0 0 (acc ++ [db]) t hmm hbs (by omega) (by omega)
              (by norm_num)]
            simp [assembleBits, h8]
          · rw [decodeLoop_step0 _ c bc db acc hlen hflag' h5 h8]
            rw [ih bs 0 (bc + 1) db acc t hmm hbs (by omega) (by omega)
              (by have : (2 : Nat) ^ bc ≤ 2 ^ (bc + 1) := Nat.pow_le_pow_right (by omega) (by omega); omega)]
            simp [assembleBits, h8]

/-! ## Byte assembly and bit packing -/

lemma assembleBits_byte (b : Nat) (rest : List Nat) (hb : b < 256) :
    assembleBits (byteBitsLSB b ++ rest) 0 0 = b :: assembleBits rest 0 0 := by
  simp only [byteBitsLSB, List.cons_append, List.nil_append, assembleBits]
  norm_num
  omega

lemma assembleBits_flatMap : ∀ (bytes : List Nat), (∀ b ∈ bytes, b < 256) →
    assembleBits (bytes.flatMap byteBitsLSB) 0 0 = bytes := by
  intro bytes
  induction bytes with
  | nil => intro _; rfl
  | cons b bs ih =>
    intro hb
    rw [List.flatMap_cons, assembleBits_byte b _ (hb b (by simp)),
      ih fun y hy => hb y (by simp [hy])]

lemma bitsValMSB_append_zeros (l : List Nat) (m : Nat) :
    bitsValMSB (l ++ List.replicate m 0) = bitsValMSB l * 2 ^ m := by
  have key : ∀ (k : Nat) (a : Nat),
      List.foldl (fun a b => 2 * a + b) a (List.replicate k 0) = a * 2 ^ k := by
    intro k
    induction k with
    | zero => intro a; simp
    | succ k ihk =>
      intro a
      rw [List.replicate_succ, List.foldl_cons, ihk]
      ring
  rw [bitsValMSB, bitsValMSB, List.foldl_append, key]

lemma byteBitsMSB_of_bitsVal : ∀ (l : List Nat), l.length = 8 →
    (∀ b ∈ l, b ≤ 1) → byteBitsMSB (bitsValMSB l) = l := by
  intro l hlen hb
  rcases l with _ | ⟨b0, _ | ⟨b1, _ | ⟨b2, _ | ⟨b3, _ | ⟨b4, _ | ⟨b5, _ | ⟨b6, _ | ⟨b7, rest⟩⟩⟩⟩⟩⟩⟩⟩ <;>
    simp only [List.length_cons, List.length_nil] at hlen <;> try omega
  have h0 : b0 ≤ 1 := hb b0 (by simp)
  have h1 : b1 ≤ 1 := hb b1 (by simp)
  have h2 : b2 ≤ 1 := hb b2 (by simp)
  have h3 : b3 ≤ 1 := hb b3 (by simp)
  have h4 : b4 ≤ 1 := hb b4 (by simp)
  have h5 : b5 ≤ 1 := hb b5 (by simp)
  have h6 : b6 ≤ 1 := hb b6 (by simp)
  have h7 : b7 ≤ 1 := hb b7 (by simp)
  have hrest : rest = [] := by
    cases rest with
    | nil => rfl
    | cons x xs => simp at hlen
  subst hrest
  simp only [byteBitsMSB, bitsValMSB, List.foldl_cons, List.foldl_nil]
  norm_num
  omega

lemma packBits_short (l : List Nat) (h1 : 1 ≤ l.length) (h2 : l.length ≤ 7) :
    packBits l = [bitsValMSB l * 2 ^ (8 - l.length)] := by
  rcases l with _ | ⟨b0, _ | ⟨b1, _ | ⟨b2, _ | ⟨b3, _ | ⟨b4, _ | ⟨b5, _ | ⟨b6, _ | ⟨b7, rest⟩⟩⟩⟩⟩⟩⟩⟩ <;>
    first
      | rfl
      | (simp only [List.length_cons, List.length_nil] at h1 h2; omega)

lemma unpack_short (l : List Nat) (h1 : 1 ≤ l.length) (h2 : l.length ≤ 7)
    (hb : ∀ b ∈ l, b ≤ 1) :
    bytesToBitsMSB (packBits l) = l ++ List.replicate (8 - l.length) 0 := by
  rw [packBits_short l h1 h2]
  have hv : bitsValMSB l * 2 ^ (8 - l.length)
      = bitsValMSB (l ++ List.replicate (8 - l.length) 0) := by
    rw [bitsValMSB_append_zeros]
  have hlenfull : (l ++ List.replicate (8 - l.length) 0).length = 8 := by
    simp only [List.length_append, List.length_replicate]
    omega
  have hbfull : ∀ x ∈ l ++ List.replicate (8 - l.length) 0, x ≤ 1 := by
    intro x hx
    rcases List.mem_append.mp hx with hx | hx
    · exact hb x hx
    · rw [List.eq_of_mem_replicate hx]; omega
  have hone : bytesToBitsMSB [bitsValMSB l * 2 ^ (8 - l.length)]
      = byteBitsMSB (bitsValMSB l * 2 ^ (8 - l.length)) := by
    simp [bytesToBitsMSB]
  rw [hone, hv, byteBitsMSB_of_bitsVal _ hlenfull hbfull]

lemma bytesToBitsMSB_packBits : ∀ (n : Nat) (l : List Nat), l.length ≤ n →
    (∀ b ∈ l, b ≤ 1) →
    bytesToBitsMSB (packBits l)
      = l ++ List.replicate ((8 - l.length % 8) % 8) 0 := by
  intro n
  induction n with
  | zero =>
    intro l hn _
    obtain rfl : l = [] := List.length_eq_zero.mp (by omega)
    simp [packBits, bytesToBitsMSB]
  | succ n ih =>
    intro l hn hb
    rcases l with _ | ⟨b0, _ | ⟨b1, _ | ⟨b2, _ | ⟨b3, _ | ⟨b4, _ | ⟨b5, _ | ⟨b6, _ | ⟨b7, rest⟩⟩⟩⟩⟩⟩⟩⟩
    · simp [packBits, bytesToBitsMSB]
    · rw [unpack_short _ (by simp) (by simp) hb]
      have hcnt : 8 - ([b0] : List Nat).length = (8 - ([b0] : List Nat).length % 8) % 8 := by
        simp only [List.length_cons, List.length_nil]
      rw [hcnt]
    · rw [unpack_short _ (by simp) (by simp) hb]
      have hcnt : 8 - ([b0, b1] : List Nat).length = (8 - ([b0, b1] : List Nat).length % 8) % 8 := by
        simp only [List.length_cons, List.length_nil]
      rw [hcnt]
    · rw [unpack_short _ (by simp) (by simp) hb]
      have hcnt : 8 - ([b0, b1, b2] : List Nat).length = (8 - ([b0, b1, b2] : List Nat).length % 8) % 8 := by
        simp only [List.length_cons, List.length_nil]
      rw [hcnt]
    · rw [unpack_short _ (by simp) (by simp) hb]
      have hcnt : 8 - ([b0, b1, b2, b3] : List Nat).length = (8 - ([b0, b1, b2, b3] : List Nat).length % 8) % 8 := by
        simp only [List.length_cons, List.length_nil]
      rw [hcnt]
    · rw [unpack_short _ (by simp) (by simp) hb]
      have hcnt : 8 - ([b0, b1, b2, b3, b4] : List Nat).length = (8 - ([b0, b1, b2, b3, b4] : List Nat).length % 8) % 8 := by
        simp only [List.length_cons, List.length_nil]
      rw [hcnt]
    · rw [unpack_short _ (by simp) (by simp) hb]
      have hcnt : 8 - ([b0, b1, b2, b3, b4, b5] : List Nat).length = (8 - ([b0, b1, b2, b3, b4, b5] : List Nat).length % 8) % 8 := by
        simp only [List.length_cons, List.length_nil]
      rw [hcnt]
    · rw [unpack_short _ (by simp) (by simp) hb]
      have hcnt : 8 - ([b0, b1, b2, b3, b4, b5, b6] : List Nat).length = (8 - ([b0, b1, b2, b3, b4, b5, b6] : List Nat).length % 8) % 8 := by
        simp only [List.length_cons, List.length_nil]
      rw [hcnt]
    · -- a full group of eight bits
      have hfirst8 : ([b0, b1, b2, b3, b4, b5, b6, b7] : List Nat).length = 8 := rfl
      have hb8 : ∀ x ∈ ([b0, b1, b2, b3, b4, b5, b6, b7] : List Nat), x ≤ 1 := by
        intro x hx
        apply hb
        simp only [List.mem_cons, List.not_mem_nil, or_false] at hx
        rcases hx with rfl | rfl | rfl | rfl | rfl | rfl | rfl | rfl <;> simp
      have hrest : ∀ x ∈ rest, x ≤ 1 := by
        intro x hx
        apply hb
        simp [hx]
      have hlenrest : rest.length ≤ n := by
        simp only [List.length_cons] at hn
        omega
      show bytesToBitsMSB (bitsValMSB [b0, b1, b2, b3, b4, b5, b6, b7] :: packBits rest)
          = _
      have hexp : bytesToBitsMSB (bitsValMSB [b0, b1, b2, b3, b4, b5, b6, b7] :: packBits rest)
          = byteBitsMSB (bitsValMSB [b0, b1, b2, b3, b4, b5, b6, b7])
            ++ bytesToBitsMSB (packBits rest) := by
        simp [bytesToBitsMSB]
      rw [hexp, byteBitsMSB_of_bitsVal _ hfirst8 hb8, ih rest hlenrest hrest]
      have hmod : (8 - rest.length % 8) % 8
          = (8 - (b0 :: b1 :: b2 :: b3 :: b4 :: b5 :: b6 :: b7 :: rest).length % 8) % 8 := by
        simp only [List.length_cons]
        omega
      rw [hmod]
      simp

lemma packBits_length : ∀ (n : Nat) (l : List Nat), l.length ≤ n →
    (packBits l).length = (l.length + 7) / 8 := by
  intro n
  induction n with
  | zero =>
    intro l hn
    obtain rfl : l = [] := List.length_eq_zero.mp (by omega)
    simp [packBits]
  | succ n ih =>
    intro l hn
    rcases l with _ | ⟨b0, _ | ⟨b1, _ | ⟨b2, _ | ⟨b3, _ | ⟨b4, _ | ⟨b5, _ | ⟨b6, _ | ⟨b7, rest⟩⟩⟩⟩⟩⟩⟩⟩
    · simp [packBits]
    · simp [packBits, bitsValMSB]
    · simp [packBits, bitsValMSB]
    · simp [packBits, bitsValMSB]
    · simp [packBits, bitsValMSB]
    · simp [packBits, bitsValMSB]
    · simp [packBits, bitsValMSB]
    · simp [packBits, bitsValMSB]
    · have hlenrest : rest.length ≤ n := by
        simp only [List.length_cons] at hn
        omega
      show (bitsValMSB [b0, b1, b2, b3, b4, b5, b6, b7] :: packBits rest).length = _
      rw [List.length_cons, ih rest hlenrest]
      simp only [List.length_cons]
      omega

/-! ## FCS bounds and byte ranges -/

lemma crc16_step_lt (c : Nat) (h : c < 65536) : crc16_step c < 65536 := by
  rw [crc16_step]
  by_cases hodd : c % 2 = 1
  · rw [if_pos hodd]
    have h1 : c / 2 < 2 ^ 16 := by omega
    have h2 : (0x8408 : Nat) < 2 ^ 16 := by norm_num
    have := Nat.xor_lt_two_pow h1 h2
    omega
  · rw [if_neg hodd]
    omega

lemma crc16_table_lt (i : Nat) (h : i < 65536) : crc16_ccitt_table_reverse i < 65536 := by
  rw [crc16_ccitt_table_reverse]
  exact crc16_step_lt _ (crc16_step_lt _ (crc16_step_lt _ (crc16_step_lt _
    (crc16_step_lt _ (crc16_step_lt _ (crc16_step_lt _ (crc16_step_lt _ h)))))))

lemma ax25_fcs_lt (l : List Nat) : ax25_fcs l < 65536 := by
  rw [ax25_fcs]
  have key : ∀ (l : List Nat) (acc : Nat), acc < 65536 →
      l.foldl (fun fcs b =>
        (fcs / 256) ^^^ crc16_ccitt_table_reverse ((fcs ^^^ b) % 256)) acc < 65536 := by
    intro l
    induction l with
    | nil => intro acc h; simpa using h
    | cons b bs ih =>
      intro acc h
      rw [List.foldl_cons]
      apply ih
      have h1 : acc / 256 < 2 ^ 16 := by omega
      have h2 : crc16_ccitt_table_reverse ((acc ^^^ b) % 256) < 2 ^ 16 := by
        have := crc16_table_lt ((acc ^^^ b) % 256) (by omega)
        omega
      have := Nat.xor_lt_two_pow h1 h2
      omega
  have h1 : (l.foldl (fun fcs b =>
      (fcs / 256) ^^^ crc16_ccitt_table_reverse ((fcs ^^^ b) % 256)) 0xFFFF) < 2 ^ 16 := by
    have := key l 0xFFFF (by norm_num)
    omega
  have h2 : (0xFFFF : Nat) < 2 ^ 16 := by norm_num
  have := Nat.xor_lt_two_pow h1 h2
  omega

lemma byteBitsLSB_le_one (l : List Nat) : ∀ x ∈ l.flatMap byteBitsLSB, x ≤ 1 := by
  intro x hx
  rw [List.mem_flatMap] at hx
  obtain ⟨b, -, hx⟩ := hx
  simp only [byteBitsLSB, List.mem_cons, List.not_mem_nil, or_false] at hx
  rcases hx with rfl | rfl | rfl | rfl | rfl | rfl | rfl | rfl <;> omega

lemma ax25Header16_lt : ∀ b ∈ ax25Header16, b < 256 := by decide

lemma ax25Header16_length : ax25Header16.length = 16 := by decide

lemma frameContent_lt (p : List Nat) (hb : ∀ b ∈ p, b < 256) :
    ∀ b ∈ frameContent p, b < 256 := by
  intro b hbmem
  simp only [frameContent, List.mem_append, List.mem_cons, List.not_mem_nil,
    or_false] at hbmem
  rcases hbmem with (hbmem | hbmem) | rfl | rfl
  · exact ax25Header16_lt b hbmem
  · exact hb b hbmem
  · omega
  · omega

lemma frameContent_length (p : List Nat) :
    (frameContent p).length = 18 + p.length := by
  simp [frameContent, ax25Header16_length]
  omega

/-! ## The encode pipeline -/

lemma create_frame_ui (info addr : List Nat) (hinfo : info.length ≤ 240) :
    ax25_create_frame info FrameType.UI addr 0x03 1
      = 0x7E :: ((addr ++ [0x03, 0xF0] ++ info)
        ++ [ax25_fcs (addr ++ [0x03, 0xF0] ++ info) / 256 % 256,
            ax25_fcs (addr ++ [0x03, 0xF0] ++ info) % 256, 0x7E]) := by
  rw [ax25_create_frame, if_neg (by omega), if_neg (by simp)]
  simp only [if_pos rfl]
  simp [List.append_assoc]

lemma ax25_encode_ui_unfold (p : List Nat) :
    ax25_encode p FrameType.UI
      = (if (ax25_create_frame p FrameType.UI
              (ax25_create_addr_field GRD_CALLSIGN GRD_SSID SAT_CALLSIGN SAT_SSID)
              0x03 1).length = 0
         then Except.error (-1)
         else
           match ax25_bit_stuffing (ax25_create_frame p FrameType.UI
              (ax25_create_addr_field GRD_CALLSIGN GRD_SSID SAT_CALLSIGN SAT_SSID)
              0x03 1) with
           | none => Except.error (-1)
           | some bits => Except.ok (packBits bits)) := rfl

lemma encode_eq (p : List Nat) (hp : p.length ≤ 240) :
    ax25_encode p FrameType.UI
      = Except.ok (packBits (flagBits
          ++ specStuff ((frameContent p).flatMap byteBitsLSB) 0 ++ flagBits)) := by
  rw [ax25_encode_ui_unfold]
  have hframe : ax25_create_frame p FrameType.UI
      (ax25_create_addr_field GRD_CALLSIGN GRD_SSID SAT_CALLSIGN SAT_SSID) 0x03 1
      = 0x7E :: (frameContent p ++ [0x7E]) := by
    rw [create_frame_ui p _ hp]
    simp [frameContent, ax25Header16, List.append_assoc]
  rw [hframe]
  have hlen : (0x7E :: (frameContent p ++ [0x7E])).length = 20 + p.length := by
    simp [frameContent_length]
    omega
  rw [if_neg (by rw [hlen]; omega)]
  have hbody : ((0x7E :: (frameContent p ++ [0x7E])).drop 1).take
      ((0x7E :: (frameContent p ++ [0x7E])).length - 2) = frameContent p := by
    rw [List.drop_one, List.tail_cons, hlen]
    have : 20 + p.length - 2 = (frameContent p).length := by
      rw [frameContent_length]; omega
    rw [this, List.take_left' rfl]
  rw [ax25_bit_stuffing, hbody, stuff_eq_specStuff]

/-! ## The decode pipeline on an encoded frame -/

lemma ax25_recv_ok (input l w : List Nat)
    (hf : findStart (bytesToBitsMSB input) = some l)
    (hl : decodeLoop (l.drop 8) 0 0 0 [] = (w, true))
    (hw : 14 ≤ w.length)
    (hfcs : ax25_fcs (w.take (w.length - 2))
      = w.getD (w.length - 2) 0 * 256 + w.getD (w.length - 1) 0) :
    ax25_recv input = (w, ((w.length - 2 : Nat) : Int)) := by
  rw [ax25_recv, ax25_decode]
  simp only [hf, hl, if_neg (show ¬ w.length < 14 by omega), if_pos hfcs]

lemma ax25_recv_fcs_fail (input l w : List Nat)
    (hf : findStart (bytesToBitsMSB input) = some l)
    (hl : decodeLoop (l.drop 8) 0 0 0 [] = (w, true))
    (hw : 14 ≤ w.length)
    (hfcs : ax25_fcs (w.take (w.length - 2))
      ≠ w.getD (w.length - 2) 0 * 256 + w.getD (w.length - 1) 0) :
    ax25_recv input = (w, -1) := by
  rw [ax25_recv, ax25_decode]
  simp only [hf, hl, if_neg (show ¬ w.length < 14 by omega), if_neg hfcs]

lemma recv_core (p : List Nat) (hb : ∀ b ∈ p, b < 256) :
    ax25_recv (packBits (flagBits
        ++ specStuff ((frameContent p).flatMap byteBitsLSB) 0 ++ flagBits))
      = (frameContent p, ((16 + p.length : Nat) : Int)) := by
  have hSbits : ∀ x ∈ specStuff ((frameContent p).flatMap byteBitsLSB) 0, x ≤ 1 :=
    specStuff_allBits _ 0 (byteBitsLSB_le_one _)
  have hflagb : ∀ x ∈ flagBits, x ≤ 1 := by decide
  have hBbits : ∀ x ∈ flagBits
      ++ specStuff ((frameContent p).flatMap byteBitsLSB) 0 ++ flagBits, x ≤ 1 := by
    intro x hx
    rcases List.mem_append.mp hx with hx | hx
    · rcases List.mem_append.mp hx with hx | hx
      · exact hflagb x hx
      · exact hSbits x hx
    · exact hflagb x hx
  have hunpack := bytesToBitsMSB_packBits
    (flagBits ++ specStuff ((frameContent p).flatMap byteBitsLSB) 0 ++ flagBits).length
    _ le_rfl hBbits
  generalize hS : specStuff ((frameContent p).flatMap byteBitsLSB) 0 = S at *
  generalize hZ : List.replicate
      ((8 - (flagBits ++ S ++ flagBits).length % 8) % 8) (0 : Nat) = Z at *
  have hstream : (flagBits ++ S ++ flagBits) ++ Z
      = 0 :: 1 :: 1 :: 1 :: 1 :: 1 :: 1 :: 0 :: (S ++ (flagBits ++ Z)) := by
    simp [flagBits, List.append_assoc]
  have hfind : findStart
      (bytesToBitsMSB (packBits (flagBits ++ S ++ flagBits)))
      = some (0 :: 1 :: 1 :: 1 :: 1 :: 1 :: 1 :: 0 :: (S ++ (flagBits ++ Z))) := by
    rw [hunpack, hstream, findStart]
    rw [if_pos (by
        have h8 : flagBits.length = 8 := rfl
        simp only [List.length_cons, List.length_append, h8]
        omega),
      if_pos (by simp [flagHead])]
  have hflagZ : flagBits ++ Z = 0 :: 1 :: 1 :: 1 :: 1 :: 1 :: 1 :: 0 :: Z := by
    simp [flagBits]
  have hloop0 := decodeLoop_specStuff
    (2 * ((frameContent p).flatMap byteBitsLSB).length + 1)
    ((frameContent p).flatMap byteBitsLSB) 0 0 0 [] Z
    (by norm_num) (byteBitsLSB_le_one _) (by omega) (by omega) (by norm_num)
  rw [hS] at hloop0
  have hloop : decodeLoop
      ((0 :: 1 :: 1 :: 1 :: 1 :: 1 :: 1 :: 0 :: (S ++ (flagBits ++ Z))).drop 8)
      0 0 0 [] = (frameContent p, true) := by
    have hdrop : (0 :: 1 :: 1 :: 1 :: 1 :: 1 :: 1 :: 0 :: (S ++ (flagBits ++ Z))).drop 8
        = S ++ (flagBits ++ Z) := by simp
    rw [hdrop, hflagZ]
    rw [hloop0, assembleBits_flatMap _ (frameContent_lt p hb)]
    simp
  have hlenw : (frameContent p).length = 18 + p.length := frameContent_length p
  have hsplit : frameContent p = (ax25Header16 ++ p)
      ++ [ax25_fcs (ax25Header16 ++ p) / 256 % 256, ax25_fcs (ax25Header16 ++ p) % 256] :=
    rfl
  have hlenX : (ax25Header16 ++ p).length = 16 + p.length := by
    simp [ax25Header16_length]
  have htake : (frameContent p).take ((frameContent p).length - 2) = ax25Header16 ++ p := by
    rw [hlenw]
    have h1 : 18 + p.length - 2 = (ax25Header16 ++ p).length := by omega
    rw [h1]
    conv in frameContent p => rw [hsplit]
    exact List.take_left _ _
  have hhi : (frameContent p).getD ((frameContent p).length - 2) 0
      = ax25_fcs (ax25Header16 ++ p) / 256 % 256 := by
    rw [hlenw]
    conv in frameContent p => rw [hsplit]
    rw [List.getD_append_right _ _ _ _ (by omega), hlenX]
    have h2 : 18 + p.length - 2 - (16 + p.length) = 0 := by omega
    rw [h2]
    rfl
  have hlo : (frameContent p).getD ((frameContent p).length - 1) 0
      = ax25_fcs (ax25Header16 ++ p) % 256 := by
    rw [hlenw]
    conv in frameContent p => rw [hsplit]
    rw [List.getD_append_right _ _ _ _ (by omega), hlenX]
    have h2 : 18 + p.length - 1 - (16 + p.length) = 1 := by omega
    rw [h2]
    rfl
  have hfcslt : ax25_fcs (ax25Header16 ++ p) < 65536 := ax25_fcs_lt _
  have := ax25_recv_ok (packBits (flagBits ++ S ++ flagBits)) _ _ hfind hloop
    (by omega) (by rw [htake, hhi, hlo]; omega)
  rw [this, hlenw]
  have h3 : 18 + p.length - 2 = 16 + p.length := by omega
  rw [h3]

/-! ## Theorems for the specification claims -/

/-- C1: for every payload `p` with `|p| ≤ 235` bytes, `ax25_recv` applied to
the output of `ax25_encode(p, AX25_UI_FRAME)` succeeds and returns
`16 + |p|`; the caller's buffer starts with the 14-byte address field built
from the configured callsigns, the control byte `0x03`, the PID byte `0xF0`,
and then the bytes of `p` unchanged; the 16-byte prefix (`ax25Header16`, a
fixed list) is the same for every such `p`. -/
theorem recv_encode_roundtrip (p : List Nat)
    (hb : ∀ b ∈ p, b < 256) (hp : p.length ≤ 235) :
    ∃ w, ax25_encode p FrameType.UI = Except.ok w ∧
      ax25_recv w = (frameContent p, ((16 + p.length : Nat) : Int)) ∧
      (frameContent p).take (16 + p.length) = ax25Header16 ++ p ∧
      ax25Header16.length = 16 := by
  refine ⟨_, encode_eq p (by omega), recv_core p hb, ?_, ax25Header16_length⟩
  have h1 : 16 + p.length = (ax25Header16 ++ p).length := by
    simp [ax25Header16_length]
  conv_lhs => rw [show frameContent p = (ax25Header16 ++ p)
    ++ [ax25_fcs (ax25Header16 ++ p) / 256 % 256,
        ax25_fcs (ax25Header16 ++ p) % 256] from rfl]
  rw [h1, List.take_left]

/-- C1 witness: the round trip at the concrete payload `"Hello"`. -/
theorem recv_encode_roundtrip_witness :
    ∃ w, ax25_encode [0x48, 0x65, 0x6C, 0x6C, 0x6F] FrameType.UI = Except.ok w ∧
      ax25_recv w = (frameContent [0x48, 0x65, 0x6C, 0x6C, 0x6F],
        ((16 + [0x48, 0x65, 0x6C, 0x6C, 0x6F].length : Nat) : Int)) ∧
      (frameContent [0x48, 0x65, 0x6C, 0x6C, 0x6F]).take
          (16 + [0x48, 0x65, 0x6C, 0x6C, 0x6F].length)
        = ax25Header16 ++ [0x48, 0x65, 0x6C, 0x6C, 0x6F] ∧
      ax25Header16.length = 16 :=
  recv_encode_roundtrip [0x48, 0x65, 0x6C, 0x6C, 0x6F] (by decide) (by decide)

/-- C5: on a frame buffer of more than two bytes, `ax25_bit_stuffing` emits
the 8 leading flag bits verbatim, then the body bits (the bytes between the
flags, scanned LSB-first within each byte) with a single 0 bit inserted
after every run of exactly five consecutive 1 bits regardless of the
following bit (the spec-side rule `specStuff`), then the 8 trailing flag
bits verbatim; the emitted body never contains six or more consecutive
1 bits. -/
theorem bit_stuffing_matches_spec (frame : List Nat) (hlen : frame.length > 2) :
    ax25_bit_stuffing frame
      = some (flagBits
          ++ specStuff (((frame.drop 1).take (frame.length - 2)).flatMap byteBitsLSB) 0
          ++ flagBits) ∧
    noSixOnes (specStuff (((frame.drop 1).take (frame.length - 2)).flatMap byteBitsLSB) 0) := by
  constructor
  · rw [ax25_bit_stuffing, stuff_eq_specStuff]
  · rintro ⟨u, v, huv⟩
    exact runsBounded_noSixOnes u _ 0
      (specStuff_runsBounded _ 0 (byteBitsLSB_le_one _) (by omega)) v huv

/-- C5 witness: the stuffing shape at the concrete frame `7E AA 7E`. -/
theorem bit_stuffing_matches_spec_witness :
    ax25_bit_stuffing [0x7E, 0xAA, 0x7E]
      = some (flagBits
          ++ specStuff ((([0x7E, 0xAA, 0x7E].drop 1).take
              ([0x7E, 0xAA, 0x7E].length - 2)).flatMap byteBitsLSB) 0
          ++ flagBits) ∧
    noSixOnes (specStuff ((([0x7E, 0xAA, 0x7E].drop 1).take
        ([0x7E, 0xAA, 0x7E].length - 2)).flatMap byteBitsLSB) 0) :=
  bit_stuffing_matches_spec [0x7E, 0xAA, 0x7E] (by decide)

/-- C10: for every input buffer of more than two bytes, `ax25_bit_stuffing`
returns `AX25_ENC_OK`; the abort branch testing `cont_1 > AX25_MAX_STUFFED_BITS`
is unreachable — the stuffing loop (`stuff`) never returns the failure value
for any bit stream and any starting counter. -/
theorem bit_stuffing_never_aborts (frame : List Nat) (hlen : frame.length > 2) :
    (∃ s, ax25_bit_stuffing frame = some s) ∧
    ∀ (bits : List Nat) (c : Nat), stuff bits c ≠ none := by
  constructor
  · exact ⟨_, by rw [ax25_bit_stuffing, stuff_eq_specStuff]⟩
  · intro bits c h
    obtain ⟨S, hS⟩ := stuff_isSome bits c
    rw [hS] at h
    exact Option.noConfusion h

/-- C10 witness: the concrete frame `7E FF 7E` (five-ones runs inside). -/
theorem bit_stuffing_never_aborts_witness :
    (∃ s, ax25_bit_stuffing [0x7E, 0xFF, 0x7E] = some s) ∧
    ∀ (bits : List Nat) (c : Nat), stuff bits c ≠ none :=
  bit_stuffing_never_aborts [0x7E, 0xFF, 0x7E] (by decide)

/-- C4: at payload length 238 (any 238-byte payload, here all zeros) the
frame `ax25_create_frame` lays down during `ax25_encode` is 258 bytes long —
it does NOT fit the `AX25_MAX_FRAME_LEN = 256`-byte intermediate buffer, and
`ax25_encode` does not fail with any documented error either: the info-length
check admits every `|p| ≤ 240` and no bounds check exists, so the C code
writes past `interm_buffer`. -/
theorem create_frame_exceeds_buffer_238 :
    (ax25_create_frame (List.replicate 238 0) FrameType.UI
        (ax25_create_addr_field GRD_CALLSIGN GRD_SSID SAT_CALLSIGN SAT_SSID)
        0x03 1).length = 258 ∧
    AX25_MAX_FRAME_LEN < 258 ∧
    ∃ w, ax25_encode (List.replicate 238 0) FrameType.UI = Except.ok w := by
  refine ⟨?_, by norm_num [AX25_MAX_FRAME_LEN],
    ⟨_, encode_eq _ (by norm_num [List.length_replicate])⟩⟩
  rw [create_frame_ui _ _ (by norm_num [List.length_replicate])]
  have haddr : (ax25_create_addr_field GRD_CALLSIGN GRD_SSID
      SAT_CALLSIGN SAT_SSID).length = 14 := by decide
  simp only [List.length_cons, List.length_append, haddr, List.length_replicate,
    List.length_nil]

set_option maxRecDepth 1000000 in
/-- C2: encoding `"Test Data"` (10 bytes including the NUL), flipping the
single bit `0x01` of the middle wire byte (`encoded[enc_len/2]`, index 15 of
30) and calling `ax25_recv` reaches the FCS comparison — the closing flag is
found and the reconstructed bytes fail the check — yet the call returns the
generic failure code `-1`, not the fcs-mismatch code `-4`
(`AX25_ERROR_FCS_MISMATCH` is defined in `config.h` but never returned:
`ax25_decode` collapses the mismatch into `AX25_DEC_FAIL` and `ax25_recv`
maps every failure to `AX25_ERROR`). -/
theorem recv_fcs_mismatch_returns_minus_one :
    ax25_encode testDataPayload FrameType.UI = Except.ok testDataWire ∧
    corruptedTestFrame = testDataWire.set 15 (testDataWire.getD 15 0 ^^^ 0x01) ∧
    (decodeLoop ((bytesToBitsMSB corruptedTestFrame).drop 8) 0 0 0 []).2 = true ∧
    (ax25_recv corruptedTestFrame).2 = -1 ∧
    (-1 : Int) ≠ -4 := by
  refine ⟨by rfl, by rfl, by decide, by decide, by decide⟩

/-- C9 (amended): whenever `ax25_recv` fails on the FCS comparison, the
caller's output buffer is NOT left unchanged — it holds exactly the (at
least 14, hence some) bytes the decode loop reconstructed, while only the
negative return code `-1` marks them invalid. -/
theorem recv_failure_buffer_holds_partial (input l w : List Nat)
    (hf : findStart (bytesToBitsMSB input) = some l)
    (hl : decodeLoop (l.drop 8) 0 0 0 [] = (w, true))
    (hw : 14 ≤ w.length)
    (hfcs : ax25_fcs (w.take (w.length - 2))
      ≠ w.getD (w.length - 2) 0 * 256 + w.getD (w.length - 1) 0) :
    ax25_recv input = (w, -1) ∧ w ≠ [] := by
  refine ⟨ax25_recv_fcs_fail input l w hf hl hw hfcs, ?_⟩
  intro h
  subst h
  simp at hw

set_option maxRecDepth 1000000 in
/-- C9 witness: on the corrupted "Test Data" frame the decoder writes its 28
reconstructed bytes into the caller's buffer and returns `-1`. -/
theorem recv_failure_buffer_holds_partial_witness :
    ax25_recv corruptedTestFrame
      = ((decodeLoop ((bytesToBitsMSB corruptedTestFrame).drop 8) 0 0 0 []).1, -1) ∧
    (decodeLoop ((bytesToBitsMSB corruptedTestFrame).drop 8) 0 0 0 []).1 ≠ [] :=
  recv_failure_buffer_holds_partial corruptedTestFrame
    (bytesToBitsMSB corruptedTestFrame)
    ((decodeLoop ((bytesToBitsMSB corruptedTestFrame).drop 8) 0 0 0 []).1)
    (by decide) (by decide) (by decide) (by decide)

set_option maxRecDepth 1000000 in
/-- C9 counterexample: a concrete `ax25_recv` call that returns a negative
error code but does not leave the output buffer unchanged — partially
decoded bytes are observable after the failure. -/
theorem recv_failure_partial_bytes_observable :
    (ax25_recv corruptedTestFrame).2 < 0 ∧ (ax25_recv corruptedTestFrame).1 ≠ [] := by
  refine ⟨by decide, by decide⟩

lemma strnlen_le_left : ∀ (s : List Nat) (m : Nat), strnlen s m ≤ m := by
  intro s
  induction s with
  | nil => intro m; cases m <;> simp [strnlen]
  | cons b bs ih =>
    intro m
    cases m with
    | zero => simp [strnlen]
    | succ m =>
      rw [strnlen]
      by_cases h : b = 0
      · simp [h]
      · rw [if_neg h]
        have := ih m
        omega

lemma strnlen_le_length : ∀ (s : List Nat) (m : Nat), strnlen s m ≤ s.length := by
  intro s
  induction s with
  | nil => intro m; cases m <;> simp [strnlen]
  | cons b bs ih =>
    intro m
    cases m with
    | zero => simp [strnlen]
    | succ m =>
      rw [strnlen]
      by_cases h : b = 0
      · simp [h]
      · rw [if_neg h]
        have := ih m
        simp only [List.length_cons]
        omega

lemma encodeCallsign_length (addr : List Nat) : (encodeCallsign addr).length = 6 := by
  have h1 := strnlen_le_left addr 6
  have h2 := strnlen_le_length addr 6
  simp only [encodeCallsign, List.length_append, List.length_map,
    List.length_take, List.length_replicate]
  omega

/-- C7: for every destination and source callsign (NUL-terminated, at most 6
characters used) and SSIDs `≤ 15`, `ax25_create_addr_field` produces exactly
14 bytes: the destination characters each shifted left by one, padded to six
bytes with `0x40`, then `((dest_ssid & 0x0F) << 1) | 0x60` (the mask being the
identity here), then the characters of the *source* argument shifted and
padded the same way, then `((src_ssid & 0x0F) << 1) | 0x60 | 0x01` marking
end-of-address. -/
theorem addr_field_layout (dest src : List Nat) (dssid sssid : Nat)
    (hd : dssid ≤ 15) (hs : sssid ≤ 15) :
    ax25_create_addr_field dest dssid src sssid
      = (dest.take (strnlen dest 6)).map (fun ch => ch * 2 % 256)
        ++ List.replicate (6 - strnlen dest 6) 0x40
        ++ [dssid * 2 + 0x60]
        ++ (src.take (strnlen src 6)).map (fun ch => ch * 2 % 256)
        ++ List.replicate (6 - strnlen src 6) 0x40
        ++ [sssid * 2 + 0x60 + 0x01] ∧
    (ax25_create_addr_field dest dssid src sssid).length = 14 := by
  have hd16 : dssid % 16 = dssid := Nat.mod_eq_of_lt (by omega)
  have hs16 : sssid % 16 = sssid := Nat.mod_eq_of_lt (by omega)
  constructor
  · simp [ax25_create_addr_field, encodeCallsign, hd16, hs16, List.append_assoc]
  · simp only [ax25_create_addr_field, List.length_append, encodeCallsign_length,
      List.length_cons, List.length_nil]

/-- C7 witness: a 4-character destination with an embedded NUL-terminated
source and the extreme SSID 15. -/
theorem addr_field_layout_witness :
    ax25_create_addr_field [0x41, 0x42, 0x43, 0x44] 0 [0x50, 0x00, 0x51] 15
      = ([0x41, 0x42, 0x43, 0x44].take (strnlen [0x41, 0x42, 0x43, 0x44] 6)).map
          (fun ch => ch * 2 % 256)
        ++ List.replicate (6 - strnlen [0x41, 0x42, 0x43, 0x44] 6) 0x40
        ++ [0 * 2 + 0x60]
        ++ ([0x50, 0x00, 0x51].take (strnlen [0x50, 0x00, 0x51] 6)).map
          (fun ch => ch * 2 % 256)
        ++ List.replicate (6 - strnlen [0x50, 0x00, 0x51] 6) 0x40
        ++ [15 * 2 + 0x60 + 0x01] ∧
    (ax25_create_addr_field [0x41, 0x42, 0x43, 0x44] 0 [0x50, 0x00, 0x51] 15).length = 14 :=
  addr_field_layout [0x41, 0x42, 0x43, 0x44] [0x50, 0x00, 0x51] 0 15
    (by decide) (by decide)

/-- C6: for every info field of at most 240 bytes, 14-byte address field,
control length 1 or 2 and frame type UI or I, `ax25_create_frame` lays the
frame out as flag `0x7E`, address, control low byte first, PID `0xF0`, info,
the FCS of `addr ++ ctrl ++ PID ++ info` (the flags excluded) appended high
byte first, and the trailing flag, returning the total byte count
`19 + ctrl_len + |info|`. -/
theorem create_frame_layout (info addr : List Nat) (ty : FrameType)
    (ctrl ctrl_len : Nat)
    (hinfo : info.length ≤ 240) (haddr : addr.length = 14)
    (hctrl : ctrl_len = 1 ∨ ctrl_len = 2)
    (hty : ty = FrameType.UI ∨ ty = FrameType.I) :
    ax25_create_frame info ty addr ctrl ctrl_len
      = 0x7E :: ((addr
          ++ (if ctrl_len = 1 then [ctrl % 256] else [ctrl % 256, ctrl / 256 % 256])
          ++ [0xF0] ++ info)
        ++ [ax25_fcs (addr
              ++ (if ctrl_len = 1 then [ctrl % 256] else [ctrl % 256, ctrl / 256 % 256])
              ++ [0xF0] ++ info) / 256 % 256,
            ax25_fcs (addr
              ++ (if ctrl_len = 1 then [ctrl % 256] else [ctrl % 256, ctrl / 256 % 256])
              ++ [0xF0] ++ info) % 256, 0x7E]) ∧
    (ax25_create_frame info ty addr ctrl ctrl_len).length
      = 19 + ctrl_len + info.length := by
  have hpid : (ty = FrameType.I ∨ ty = FrameType.UI) := hty.symm.imp id id |>.symm.elim
    (fun h => Or.inr h) (fun h => Or.inl h)
  have hmain : ax25_create_frame info ty addr ctrl ctrl_len
      = 0x7E :: ((addr
          ++ (if ctrl_len = 1 then [ctrl % 256] else [ctrl % 256, ctrl / 256 % 256])
          ++ [0xF0] ++ info)
        ++ [ax25_fcs (addr
              ++ (if ctrl_len = 1 then [ctrl % 256] else [ctrl % 256, ctrl / 256 % 256])
              ++ [0xF0] ++ info) / 256 % 256,
            ax25_fcs (addr
              ++ (if ctrl_len = 1 then [ctrl % 256] else [ctrl % 256, ctrl / 256 % 256])
              ++ [0xF0] ++ info) % 256, 0x7E]) := by
    rw [ax25_create_frame, if_neg (by omega), if_neg (by omega)]
    rw [if_pos hpid]
    simp [List.append_assoc]
  refine ⟨hmain, ?_⟩
  rw [hmain]
  rcases hctrl with rfl | rfl <;>
    simp [List.length_append, haddr] <;> omega

/-- C6 witness: a 2-byte info field in a UI frame with 1-byte control. -/
theorem create_frame_layout_witness :
    ax25_create_frame [1, 2] FrameType.UI (List.replicate 14 0) 0x03 1
      = 0x7E :: ((List.replicate 14 0
          ++ (if 1 = 1 then [0x03 % 256] else [0x03 % 256, 0x03 / 256 % 256])
          ++ [0xF0] ++ [1, 2])
        ++ [ax25_fcs (List.replicate 14 0
              ++ (if 1 = 1 then [0x03 % 256] else [0x03 % 256, 0x03 / 256 % 256])
              ++ [0xF0] ++ [1, 2]) / 256 % 256,
            ax25_fcs (List.replicate 14 0
              ++ (if 1 = 1 then [0x03 % 256] else [0x03 % 256, 0x03 / 256 % 256])
              ++ [0xF0] ++ [1, 2]) % 256, 0x7E]) ∧
    (ax25_create_frame [1, 2] FrameType.UI (List.replicate 14 0) 0x03 1).length
      = 19 + 1 + [1, 2].length :=
  create_frame_layout [1, 2] (List.replicate 14 0) FrameType.UI 0x03 1
    (by decide) (by decide) (Or.inl rfl) (Or.inl rfl)

lemma length_flatMap_byteBitsLSB : ∀ (l : List Nat),
    (l.flatMap byteBitsLSB).length = 8 * l.length := by
  intro l
  induction l with
  | nil => rfl
  | cons b bs ih =>
    rw [List.flatMap_cons, List.length_append, ih]
    simp [byteBitsLSB]
    omega

lemma specStuff_length_le (bits : List Nat) (c : Nat) :
    (specStuff bits c).length ≤ 2 * bits.length := by
  rw [specStuff_length]
  have := stuffCount_le bits c
  omega

lemma encode_needs_le_240 (p : List Nat) (w : List Nat)
    (henc : ax25_encode p FrameType.UI = Except.ok w) : p.length ≤ 240 := by
  by_contra h
  rw [ax25_encode_ui_unfold] at henc
  have hframe : ax25_create_frame p FrameType.UI
      (ax25_create_addr_field GRD_CALLSIGN GRD_SSID SAT_CALLSIGN SAT_SSID) 0x03 1
      = [] := by
    rw [ax25_create_frame, if_pos (show p.length > 240 by omega)]
  rw [hframe] at henc
  simp at henc

/-- C8: for every payload `p` accepted by `ax25_encode`, the returned wire
byte count is `⌈(16 + 8·frame_bytes + stuffed_zero_bits) / 8⌉` with
`frame_bytes = 18 + |p|` (addr 14 + ctrl 1 + PID 1 + payload + FCS 2) and
`stuffed_zero_bits` the number of zero bits the stuffer inserts; the final
packed byte is zero-padded on the low-order side — re-expanding the wire
bytes yields the stuffed stream followed by `pad < 8` zero bits. -/
theorem encode_length_formula (p w : List Nat)
    (henc : ax25_encode p FrameType.UI = Except.ok w) :
    w.length = (16 + 8 * (18 + p.length)
        + stuffCount ((frameContent p).flatMap byteBitsLSB) 0 + 7) / 8 ∧
    ∃ pad, pad < 8 ∧
      8 * w.length = 16 + 8 * (18 + p.length)
        + stuffCount ((frameContent p).flatMap byteBitsLSB) 0 + pad ∧
      bytesToBitsMSB w
        = (flagBits ++ specStuff ((frameContent p).flatMap byteBitsLSB) 0 ++ flagBits)
          ++ List.replicate pad 0 := by
  have hp : p.length ≤ 240 := encode_needs_le_240 p w henc
  rw [encode_eq p hp] at henc
  have hw : w = packBits (flagBits
      ++ specStuff ((frameContent p).flatMap byteBitsLSB) 0 ++ flagBits) :=
    (Except.ok.inj henc).symm
  subst hw
  have hbitslen : ((frameContent p).flatMap byteBitsLSB).length
      = 8 * (18 + p.length) := by
    rw [length_flatMap_byteBitsLSB, frameContent_length]
  have hSlen : (specStuff ((frameContent p).flatMap byteBitsLSB) 0).length
      = 8 * (18 + p.length) + stuffCount ((frameContent p).flatMap byteBitsLSB) 0 := by
    rw [specStuff_length, hbitslen]
  have hflag8 : (flagBits : List Nat).length = 8 := rfl
  have hBlen : (flagBits
      ++ specStuff ((frameContent p).flatMap byteBitsLSB) 0 ++ flagBits).length
      = 16 + 8 * (18 + p.length)
        + stuffCount ((frameContent p).flatMap byteBitsLSB) 0 := by
    simp only [List.length_append, hflag8, hSlen]
    omega
  have hlen := packBits_length (flagBits
      ++ specStuff ((frameContent p).flatMap byteBitsLSB) 0 ++ flagBits).length
      _ le_rfl
  rw [hBlen] at hlen
  refine ⟨hlen, ?_⟩
  have hSbits : ∀ x ∈ specStuff ((frameContent p).flatMap byteBitsLSB) 0, x ≤ 1 :=
    specStuff_allBits _ 0 (byteBitsLSB_le_one _)
  have hflagb : ∀ x ∈ flagBits, x ≤ 1 := by decide
  have hBbits : ∀ x ∈ flagBits
      ++ specStuff ((frameContent p).flatMap byteBitsLSB) 0 ++ flagBits, x ≤ 1 := by
    intro x hx
    rcases List.mem_append.mp hx with hx | hx
    · rcases List.mem_append.mp hx with hx | hx
      · exact hflagb x hx
      · exact hSbits x hx
    · exact hflagb x hx
  have hunpack := bytesToBitsMSB_packBits (flagBits
      ++ specStuff ((frameContent p).flatMap byteBitsLSB) 0 ++ flagBits).length
      _ le_rfl hBbits
  refine ⟨(8 - (16 + 8 * (18 + p.length)
      + stuffCount ((frameContent p).flatMap byteBitsLSB) 0) % 8) % 8, by omega, ?_, ?_⟩
  · rw [hlen]
    omega
  · rw [hunpack, hBlen]

/-- C8 witness: the formula at the empty payload. -/
theorem encode_length_formula_witness :
    ∃ w, ax25_encode [] FrameType.UI = Except.ok w ∧
      (w.length = (16 + 8 * (18 + ([] : List Nat).length)
          + stuffCount ((frameContent []).flatMap byteBitsLSB) 0 + 7) / 8 ∧
        ∃ pad, pad < 8 ∧
          8 * w.length = 16 + 8 * (18 + ([] : List Nat).length)
            + stuffCount ((frameContent []).flatMap byteBitsLSB) 0 + pad ∧
          bytesToBitsMSB w
            = (flagBits ++ specStuff ((frameContent []).flatMap byteBitsLSB) 0 ++ flagBits)
              ++ List.replicate pad 0) := by
  refine ⟨_, encode_eq [] (by simp), ?_⟩
  exact encode_length_formula [] _ (encode_eq [] (by simp))

/-! ## Matrix layer: single-chunk runs of the two loops -/

lemma encMatrixLoop_one (matrix : List Nat) (rows cols esize total : Nat) (w : List Nat)
    (hto : min (total - 0) matrixChunkDataSize = total)
    (henc : ax25_encode (encode_matrix_metadata
        { total_chunks := 1 % 65536, chunk_index := 0 % 65536, rows := rows,
          cols := cols, data_len := total % 65536, element_size := esize }
        ++ (matrix.drop 0).take total) FrameType.UI = Except.ok w) :
    encMatrixLoop matrix rows cols esize total 1 0 0 []
      = Except.ok ([] ++ [w.length / 256 % 256, w.length % 256] ++ w) := by
  rw [encMatrixLoop, if_pos (show (0 : Nat) < 1 by omega)]
  simp only [hto, henc]
  rw [encMatrixLoop, if_neg (show ¬ (0 + 1 < 1) by omega)]

lemma decMatrixLoop_one (frames : List Nat) (L : Nat) (dw : List Nat) (ret : Int)
    (hL : frames.getD 0 0 * 256 + frames.getD (0 + 1) 0 = L)
    (hL0 : ¬ (L = 0 ∨ L > 500))
    (hrecv : ax25_recv ((frames.drop (0 + 2)).take L) = (dw, ret))
    (hret : ¬ ret < 16) :
    decMatrixLoop frames 1 0 0 [] 0 0 0
      = some ([] ++ (dw.drop 27).take (decode_matrix_metadata (dw.drop 16)).data_len,
          (decode_matrix_metadata (dw.drop 16)).rows,
          (decode_matrix_metadata (dw.drop 16)).cols,
          (decode_matrix_metadata (dw.drop 16)).element_size) := by
  rw [decMatrixLoop, if_pos (show (0 : Nat) < 1 by omega),
    if_neg (show ¬ (0 + 2 > 50000) by omega)]
  simp only [hL]
  rw [if_neg hL0]
  simp only [hrecv]
  rw [if_neg hret]
  rw [decMatrixLoop, if_neg (show ¬ (0 + 1 < 1) by omega)]
  simp

/-- C3: for every matrix image `M` of shape `(r, c)` with element size `e`,
`0 < r ≤ 1000`, `0 < c ≤ 1000`, `e ≥ 1`, and `r·c·e ≤ 200` bytes:
`ax25_encode_matrix` produces exactly one length-prefixed fragment
(`frame_count = 1`), and `ax25_decode_matrix` applied to that output
returns the same `r·c·e` bytes of `M` byte-identical and stores `rows = r`,
`cols = c`, `element_size = e` into its out-parameters. -/
theorem matrix_single_frame_roundtrip (M : List Nat) (r c e : Nat)
    (hb : ∀ b ∈ M, b < 256) (hM : M.length = r * c * e)
    (hr : 0 < r) (hr2 : r ≤ 1000) (hc : 0 < c) (hc2 : c ≤ 1000)
    (he : 1 ≤ e) (hsz : r * c * e ≤ 200) :
    ∃ stream, ax25_encode_matrix M r c e = Except.ok (stream, 1) ∧
      ax25_decode_matrix stream 1 = some (M, r, c, e) := by
  have hcds : matrixChunkDataSize = 200 := rfl
  have htot1 : 1 ≤ r * c * e := Nat.mul_pos (Nat.mul_pos hr hc) he
  have hrc1 : 1 ≤ r * c := Nat.mul_pos hr hc
  have he200 : e ≤ 200 := by
    have h1 : 1 * e ≤ r * c * e := Nat.mul_le_mul_right e hrc1
    omega
  -- the metadata bytes of the single chunk
  have hmb : encode_matrix_metadata
      { total_chunks := 1 % 65536, chunk_index := 0 % 65536, rows := r,
        cols := c, data_len := r * c * e % 65536, element_size := e }
      = [0, 1, 0, 0, r / 256 % 256, r % 256, c / 256 % 256, c % 256,
         0, r * c * e, e] := by
    simp only [encode_matrix_metadata]
    have h1 : r * c * e % 65536 = r * c * e := by omega
    rw [h1]
    have h6 : r * c * e / 256 % 256 = 0 := by omega
    have h7 : r * c * e % 256 = r * c * e := by omega
    have h8 : e % 256 = e := by omega
    rw [h6, h7, h8]
  have hmblt : ∀ b ∈ [0, 1, 0, 0, r / 256 % 256, r % 256, c / 256 % 256, c % 256,
      0, r * c * e, e], b < 256 := by
    intro b hbm
    simp only [List.mem_cons, List.not_mem_nil, or_false] at hbm
    rcases hbm with rfl | rfl | rfl | rfl | rfl | rfl | rfl | rfl | rfl | rfl | rfl <;> omega
  have hchunklt : ∀ b ∈ [0, 1, 0, 0, r / 256 % 256, r % 256, c / 256 % 256, c % 256,
      0, r * c * e, e] ++ M, b < 256 := by
    intro b hbm
    rcases List.mem_append.mp hbm with hbm | hbm
    · exact hmblt b hbm
    · exact hb b hbm
  have hchunklen : ([0, 1, 0, 0, r / 256 % 256, r % 256, c / 256 % 256, c % 256,
      0, r * c * e, e] ++ M).length = 11 + r * c * e := by
    simp [hM]
    omega
  -- run the encode loop
  have hencW := encode_eq ([0, 1, 0, 0, r / 256 % 256, r % 256, c / 256 % 256,
      c % 256, 0, r * c * e, e] ++ M) (by rw [hchunklen]; omega)
  have hchunkeq : encode_matrix_metadata
      { total_chunks := 1 % 65536, chunk_index := 0 % 65536, rows := r,
        cols := c, data_len := r * c * e % 65536, element_size := e }
      ++ (M.drop 0).take (r * c * e)
      = [0, 1, 0, 0, r / 256 % 256, r % 256, c / 256 % 256, c % 256,
         0, r * c * e, e] ++ M := by
    rw [hmb, List.drop_zero, ← hM, List.take_length]
  have hloopenc := encMatrixLoop_one M r c e (r * c * e)
    (packBits (flagBits ++ specStuff ((frameContent
      ([0, 1, 0, 0, r / 256 % 256, r % 256, c / 256 % 256, c % 256,
        0, r * c * e, e] ++ M)).flatMap byteBitsLSB) 0 ++ flagBits))
    (by have := hcds; omega)
    (by rw [hchunkeq]; exact hencW)
  -- abbreviate the wire frame
  set w := packBits (flagBits ++ specStuff ((frameContent
      ([0, 1, 0, 0, r / 256 % 256, r % 256, c / 256 % 256, c % 256,
        0, r * c * e, e] ++ M)).flatMap byteBitsLSB) 0 ++ flagBits) with hwdef
  clear_value w
  -- bounds on the wire length
  have hbitslen : ((frameContent ([0, 1, 0, 0, r / 256 % 256, r % 256,
      c / 256 % 256, c % 256, 0, r * c * e, e] ++ M)).flatMap byteBitsLSB).length
      = 8 * (18 + (11 + r * c * e)) := by
    rw [length_flatMap_byteBitsLSB, frameContent_length, hchunklen]
  have hSlow := specStuff_length ((frameContent ([0, 1, 0, 0, r / 256 % 256,
      r % 256, c / 256 % 256, c % 256, 0, r * c * e, e] ++ M)).flatMap byteBitsLSB) 0
  have hShigh := specStuff_length_le ((frameContent ([0, 1, 0, 0, r / 256 % 256,
      r % 256, c / 256 % 256, c % 256, 0, r * c * e, e] ++ M)).flatMap byteBitsLSB) 0
  have hcount := stuffCount_le ((frameContent ([0, 1, 0, 0, r / 256 % 256,
      r % 256, c / 256 % 256, c % 256, 0, r * c * e, e] ++ M)).flatMap byteBitsLSB) 0
  have hwlen : w.length = ((flagBits ++ specStuff ((frameContent
      ([0, 1, 0, 0, r / 256 % 256, r % 256, c / 256 % 256, c % 256,
        0, r * c * e, e] ++ M)).flatMap byteBitsLSB) 0 ++ flagBits).length + 7) / 8 := by
    rw [hwdef]
    exact packBits_length _ _ le_rfl
  have hflag8 : (flagBits : List Nat).length = 8 := rfl
  have hwbounds : 0 < w.length ∧ w.length ≤ 500 := by
    rw [hwlen]
    simp only [List.length_append, hflag8]
    omega
  obtain ⟨hwb1, hwb2⟩ := hwbounds
  -- the encoded stream
  have hstream : ax25_encode_matrix M r c e
      = Except.ok (([] ++ [w.length / 256 % 256, w.length % 256] ++ w), 1) := by
    have hunfold : ax25_encode_matrix M r c e
        = (match encMatrixLoop M r c e (r * c * e)
            ((r * c * e + matrixChunkDataSize - 1) / matrixChunkDataSize) 0 0 [] with
          | Except.error err => Except.error err
          | Except.ok frames => Except.ok (frames,
              (r * c * e + matrixChunkDataSize - 1) / matrixChunkDataSize)) := rfl
    have hchunks : (r * c * e + matrixChunkDataSize - 1) / matrixChunkDataSize = 1 := by
      rw [hcds]; omega
    rw [hunfold, hchunks]
    simp only [hloopenc]
  refine ⟨[] ++ [w.length / 256 % 256, w.length % 256] ++ w, hstream, ?_⟩
  -- run the decode loop
  have hstreamshape : ([] ++ [w.length / 256 % 256, w.length % 256] ++ w)
      = w.length / 256 % 256 :: w.length % 256 :: w := by simp
  have hgetL : ([] ++ [w.length / 256 % 256, w.length % 256] ++ w).getD 0 0 * 256
      + ([] ++ [w.length / 256 % 256, w.length % 256] ++ w).getD (0 + 1) 0
      = w.length := by
    rw [hstreamshape]
    simp only [List.getD_cons_zero, List.getD_cons_succ]
    omega
  have hdroptake : (([] ++ [w.length / 256 % 256, w.length % 256] ++ w).drop (0 + 2)).take
      w.length = w := by
    rw [hstreamshape]
    show (w.drop 0).take w.length = w
    rw [List.drop_zero, List.take_length]
  have hrecvW : ax25_recv ((([] ++ [w.length / 256 % 256, w.length % 256] ++ w).drop
      (0 + 2)).take w.length)
      = (frameContent ([0, 1, 0, 0, r / 256 % 256, r % 256, c / 256 % 256, c % 256,
          0, r * c * e, e] ++ M),
        ((16 + ([0, 1, 0, 0, r / 256 % 256, r % 256, c / 256 % 256, c % 256,
          0, r * c * e, e] ++ M).length : Nat) : Int)) := by
    rw [hdroptake, hwdef]
    exact recv_core _ hchunklt
  have hL0W : ¬ (w.length = 0 ∨ w.length > 500) := by
    rintro (h0 | h500)
    · rw [h0] at hwb1
      exact Nat.lt_irrefl 0 hwb1
    · exact absurd h500 (Nat.not_lt.mpr hwb2)
  have hretW : ¬ ((16 + ([0, 1, 0, 0, r / 256 % 256, r % 256, c / 256 % 256,
      c % 256, 0, r * c * e, e] ++ M).length : Nat) : Int) < 16 := by
    rw [hchunklen]
    have hnat : ¬ (16 + (11 + r * c * e) < 16) := by omega
    exact_mod_cast hnat
  have hdec := decMatrixLoop_one ([] ++ [w.length / 256 % 256, w.length % 256] ++ w)
    w.length _ _ hgetL hL0W hrecvW hretW
  rw [ax25_decode_matrix, hdec]
  -- identify the metadata and the data slice
  have hdw : frameContent ([0, 1, 0, 0, r / 256 % 256, r % 256, c / 256 % 256,
      c % 256, 0, r * c * e, e] ++ M)
      = (ax25Header16 ++ (([0, 1, 0, 0, r / 256 % 256, r % 256, c / 256 % 256,
          c % 256, 0, r * c * e, e] ++ M)
        ++ [ax25_fcs (ax25Header16 ++ ([0, 1, 0, 0, r / 256 % 256, r % 256,
              c / 256 % 256, c % 256, 0, r * c * e, e] ++ M)) / 256 % 256,
            ax25_fcs (ax25Header16 ++ ([0, 1, 0, 0, r / 256 % 256, r % 256,
              c / 256 % 256, c % 256, 0, r * c * e, e] ++ M)) % 256])) := by
    rw [frameContent, List.append_assoc]
  have hdrop16 : (frameContent ([0, 1, 0, 0, r / 256 % 256, r % 256, c / 256 % 256,
      c % 256, 0, r * c * e, e] ++ M)).drop 16
      = ([0, 1, 0, 0, r / 256 % 256, r % 256, c / 256 % 256, c % 256,
          0, r * c * e, e] ++ M)
        ++ [ax25_fcs (ax25Header16 ++ ([0, 1, 0, 0, r / 256 % 256, r % 256,
              c / 256 % 256, c % 256, 0, r * c * e, e] ++ M)) / 256 % 256,
            ax25_fcs (ax25Header16 ++ ([0, 1, 0, 0, r / 256 % 256, r % 256,
              c / 256 % 256, c % 256, 0, r * c * e, e] ++ M)) % 256] := by
    rw [hdw, List.drop_left' ax25Header16_length]
  have hmd : decode_matrix_metadata ((frameContent ([0, 1, 0, 0, r / 256 % 256,
      r % 256, c / 256 % 256, c % 256, 0, r * c * e, e] ++ M)).drop 16)
      = { total_chunks := 1, chunk_index := 0, rows := r, cols := c,
          data_len := r * c * e, element_size := e } := by
    rw [hdrop16]
    simp only [List.cons_append, List.nil_append, decode_matrix_metadata,
      List.getD_cons_zero, List.getD_cons_succ]
    have hre : r / 256 % 256 * 256 + r % 256 = r := by omega
    have hce : c / 256 % 256 * 256 + c % 256 = c := by omega
    simp [hre, hce]
  have hdrop27 : (frameContent ([0, 1, 0, 0, r / 256 % 256, r % 256, c / 256 % 256,
      c % 256, 0, r * c * e, e] ++ M)).drop 27
      = M ++ [ax25_fcs (ax25Header16 ++ ([0, 1, 0, 0, r / 256 % 256, r % 256,
            c / 256 % 256, c % 256, 0, r * c * e, e] ++ M)) / 256 % 256,
          ax25_fcs (ax25Header16 ++ ([0, 1, 0, 0, r / 256 % 256, r % 256,
            c / 256 % 256, c % 256, 0, r * c * e, e] ++ M)) % 256] := by
    have hre : frameContent ([0, 1, 0, 0, r / 256 % 256, r % 256, c / 256 % 256,
        c % 256, 0, r * c * e, e] ++ M)
        = (ax25Header16 ++ [0, 1, 0, 0, r / 256 % 256, r % 256, c / 256 % 256,
            c % 256, 0, r * c * e, e])
          ++ (M ++ [ax25_fcs (ax25Header16 ++ ([0, 1, 0, 0, r / 256 % 256, r % 256,
                c / 256 % 256, c % 256, 0, r * c * e, e] ++ M)) / 256 % 256,
              ax25_fcs (ax25Header16 ++ ([0, 1, 0, 0, r / 256 % 256, r % 256,
                c / 256 % 256, c % 256, 0, r * c * e, e] ++ M)) % 256]) := by
      rw [frameContent]
      simp [List.append_assoc]
    rw [hre, List.drop_left' (by simp [ax25Header16_length])]
  rw [hmd, hdrop27]
  clear hdec
  have htakeM : (M ++ [ax25_fcs (ax25Header16 ++ ([0, 1, 0, 0, r / 256 % 256, r % 256,
        c / 256 % 256, c % 256, 0, r * c * e, e] ++ M)) / 256 % 256,
      ax25_fcs (ax25Header16 ++ ([0, 1, 0, 0, r / 256 % 256, r % 256,
        c / 256 % 256, c % 256, 0, r * c * e, e] ++ M)) % 256]).take (r * c * e)
      = M := by
    rw [← hM, List.take_left]
  rw [htakeM]
  simp

/-- C3 witness: the 5×5 single-byte matrix `M[i][j] = 5*i + j` travels in one
fragment and reassembles byte-identical with its shape latched. -/
theorem matrix_single_frame_roundtrip_witness :
    ∃ stream, ax25_encode_matrix matrix5x5 5 5 1 = Except.ok (stream, 1) ∧
      ax25_decode_matrix stream 1 = some (matrix5x5, 5, 5, 1) :=
  matrix_single_frame_roundtrip matrix5x5 5 5 1 (by decide) (by decide)
    (by decide) (by decide) (by decide) (by decide) (by decide) (by decide)
